import Mathlib

/-!
Verification of the `calc` expression language core.

This development embeds the core of the `calc` calculator notepad in Lean 4:
the tokenizer, recursive-descent expression parser, unit-aware evaluator and
value formatter of the expression module (`expr.ts`), the statement parser
(`statement.ts`), the line evaluator (`program.ts`), the document/comment
splitter (`parse.ts` / `ast.ts`), the editor's per-document evaluation pass
(`createEditor.ts`, `sync`), and the unit catalog (`units.ts`).

Amounts are embedded as exact rationals (`ℚ`).  This idealises IEEE-754
doubles: at the small magnitudes exercised by the theorems below, double
arithmetic on `+ - * /` and integer `^` is exact, so the embedding agrees
with the source.  `Math.pow` is modelled on integer exponents; a non-integer
exponent or `0` raised to a negative power is collapsed to the non-finite
case, which `evalBinary` maps to the `Invalid exponentiation` error exactly
as the source's `Number.isFinite` guard does.
-/

namespace CalcLang

/-- `type Unit = 'none' | 'usd'` from the expression module. -/
inductive Unit where
  | none
  | usd
deriving DecidableEq, Repr

/-- `type Value = { amount: number; unit: Unit }`. -/
structure Value where
  amount : ℚ
  unit : Unit
deriving DecidableEq, Repr

/-- `type EvalResult = empty | value | error`. -/
inductive EvalResult where
  | empty
  | value (value : Value)
  | error (error : String)
deriving DecidableEq, Repr

/-- The five operator characters `+ - * / ^`. -/
inductive Op where
  | add
  | sub
  | mul
  | div
  | pow
deriving DecidableEq, Repr

/-- `function numberValue(amount: number): Value`. -/
def numberValue (amount : ℚ) : Value := { amount := amount, unit := Unit.none }

/-- `function usdValue(amount: number): Value`. -/
def usdValue (amount : ℚ) : Value := { amount := amount, unit := Unit.usd }

/-- `function evalUnary(op, value)`: negation flips the sign, preserves the unit. -/
def evalUnary (op : Op) (value : Value) : Value :=
  { amount := if op = Op.sub then -value.amount else value.amount, unit := value.unit }

/-- `Math.pow` on exact rationals: defined for integer exponents, with the JS
special case `0 ** 0 = 1`; `0` to a negative power (infinite in JS) and
non-integer exponents (irrational in general) are collapsed to `Option.none`,
the non-finite case rejected by `evalBinary`'s `Number.isFinite` guard. -/
def jsPow (a b : ℚ) : Option ℚ :=
  if b.den = 1 then
    if a = 0 ∧ b.num < 0 then Option.none
    else some (a ^ b.num)
  else Option.none

/-- `function evalBinary(op, left, right): EvalResult` from the expression
module: `+`/`-` with one-sided unit promotion, `*` rejecting two unit-bearing
operands, `/` with zero-divisor check and unit cancellation, `^` on unitless
operands with the non-finite guard. -/
def evalBinary (op : Op) (left right : Value) : EvalResult :=
  match op with
  | Op.add | Op.sub =>
    -- Promote unitless numbers to the other operand's unit.
    let promoted : Option (Value × Value) :=
      if left.unit = right.unit then some (left, right)
      else if left.unit = Unit.none then some ({ amount := left.amount, unit := right.unit }, right)
      else if right.unit = Unit.none then some (left, { amount := right.amount, unit := left.unit })
      else Option.none
    match promoted with
    | Option.none => EvalResult.error "Unit mismatch"
    | some (l, r) =>
      EvalResult.value
        { unit := l.unit
          amount := if op = Op.add then l.amount + r.amount else l.amount - r.amount }
  | Op.mul =>
    if left.unit ≠ Unit.none ∧ right.unit ≠ Unit.none then
      EvalResult.error "Cannot multiply two unit values"
    else
      let unit := if left.unit = Unit.none then right.unit else left.unit
      EvalResult.value { unit := unit, amount := left.amount * right.amount }
  | Op.div =>
    if right.amount = 0 then EvalResult.error "Division by zero"
    else if right.unit = Unit.none then
      EvalResult.value { unit := left.unit, amount := left.amount / right.amount }
    else if left.unit = right.unit then
      EvalResult.value { unit := Unit.none, amount := left.amount / right.amount }
    else EvalResult.error "Unit mismatch"
  | Op.pow =>
    if left.unit ≠ Unit.none ∨ right.unit ≠ Unit.none then
      EvalResult.error "Cannot exponentiate unit values"
    else
      match jsPow left.amount right.amount with
      | Option.none => EvalResult.error "Invalid exponentiation"
      | some value => EvalResult.value { unit := Unit.none, amount := value }

/-- `export function addValues(left, right)`: the `+` promotion rule, exposed
for the editor's block-total logic. -/
def addValues (left right : Value) : EvalResult :=
  evalBinary Op.add left right

/-- The integer denoted by a list of decimal digit characters, most
significant first (the reading JS `Number` gives a digit string). -/
def digitsVal (cs : List Char) : ℕ :=
  cs.foldl (fun acc c => 10 * acc + (c.toNat - '0'.toNat)) 0

/-- `Number(normalized)` as used by `parseNumericLiteral`: the argument there
is always a comma-free slice of a numeric token, i.e. digits with at most one
dot.  `Number('') = 0`; a string with no digit at all or any character outside
this grammar is NaN, modelled as `Option.none` (the callers' `Number.isFinite`
check rejects it either way). -/
def jsNumber (cs : List Char) : Option ℚ :=
  if cs.isEmpty then some 0
  else
    match cs.splitOn '.' with
    | [intPart] =>
      if intPart ≠ [] ∧ intPart.all Char.isDigit then some (digitsVal intPart) else Option.none
    | [intPart, fracPart] =>
      if (intPart ++ fracPart) ≠ [] ∧ (intPart ++ fracPart).all Char.isDigit then
        some ((digitsVal intPart : ℚ) + (digitsVal fracPart : ℚ) / 10 ^ fracPart.length)
      else Option.none
    | _ => Option.none

/-- `function parseNumericLiteral(raw: string): number | null`: validates
comma grouping (no comma after the dot, integer groups nonempty, first group
1–3 digits, later groups exactly 3 digits), then reads `Number` of the
comma-stripped text, rejecting non-finite results. -/
def parseNumericLiteral (raw : List Char) : Option ℚ :=
  if raw.contains ',' then
    let parts := raw.splitOn '.'
    let integerPart := parts.headD []
    let fractionPart? := parts[1]?
    if ((fractionPart?.map (fun f => f.contains ',')).getD false) then
      Option.none
    else
      let groups := integerPart.splitOn ','
      if groups.any List.isEmpty then Option.none
      else if (groups.headD []).length < 1 ∨ 3 < (groups.headD []).length then Option.none
      else if (groups.drop 1).any (fun g => g.length ≠ 3) then Option.none
      else jsNumber (raw.filter (fun c => c ≠ ','))
  else jsNumber (raw.filter (fun c => c ≠ ','))

/-- Loop body of `scanNumericToken`: counts the characters of the numeric
token (digits, at most one dot, and a comma only when followed by exactly
three more digits before any non-digit). -/
def scanNumAux : List Char → Bool → ℕ
  | [], _ => 0
  | c :: rest, seenDot =>
    if c.isDigit then 1 + scanNumAux rest seenDot
    else if c = '.' then
      if seenDot then 0 else 1 + scanNumAux rest true
    else if c = ',' then
      if seenDot then 0
      else
        match rest with
        | d1 :: d2 :: d3 :: _ =>
          if d1.isDigit ∧ d2.isDigit ∧ d3.isDigit then 1 + scanNumAux rest seenDot else 0
        | _ => 0
    else 0

/-- `function scanNumericToken(input, start)`: the length of the numeric
token starting at the given character list. -/
def scanNumericToken (cs : List Char) : ℕ := scanNumAux cs false

/-- `type Token` from the expression module. -/
inductive Token where
  | number (value : Value) (raw : String)
  | ident (name : String)
  | op (op : Op)
  | lparen
  | rparen
  | comma
deriving DecidableEq, Repr

/-- Identifier characters `[A-Za-z0-9_]`. -/
def isIdentChar (c : Char) : Bool := c.isAlpha || c.isDigit || c = '_'

/-- First character of an identifier `[A-Za-z_]`. -/
def isIdentStart (c : Char) : Bool := c.isAlpha || c = '_'

/-- Whitespace skipped by the tokenizer (space or tab). -/
def isSpaceChar (c : Char) : Bool := c = ' ' || c = '\t'

/-- Loop body of `function tokenize(input)`.  The source advances an index
over the string; here the remaining characters are passed explicitly and the
`fuel` counter stands for the loop's progress (each iteration consumes at
least one character, so `fuel = input.length + 1` never runs out). -/
def tokenizeAux : ℕ → List Char → List Token → Except String (List Token)
  | 0, _, _ => Except.error "Unexpected character: fuel"
  | _ + 1, [], tokens => Except.ok tokens.reverse
  | fuel + 1, c :: rest, tokens =>
    if isSpaceChar c then tokenizeAux fuel rest tokens
    else if c = '(' then tokenizeAux fuel rest (Token.lparen :: tokens)
    else if c = ')' then tokenizeAux fuel rest (Token.rparen :: tokens)
    else if c = ',' then tokenizeAux fuel rest (Token.comma :: tokens)
    else if c = '+' then tokenizeAux fuel rest (Token.op Op.add :: tokens)
    else if c = '-' then tokenizeAux fuel rest (Token.op Op.sub :: tokens)
    else if c = '*' then tokenizeAux fuel rest (Token.op Op.mul :: tokens)
    else if c = '/' then tokenizeAux fuel rest (Token.op Op.div :: tokens)
    else if c = '^' then tokenizeAux fuel rest (Token.op Op.pow :: tokens)
    else if c = '$' then
      let afterWs := rest.dropWhile isSpaceChar
      match afterWs with
      | [] => Except.error "Expected number after $"
      | d :: _ =>
        if d.isDigit || d = '.' then
          let len := scanNumericToken afterWs
          let rawNumber := afterWs.take len
          match parseNumericLiteral rawNumber with
          | Option.none => Except.error ("Invalid number: " ++ String.mk rawNumber)
          | some value =>
            let rawTok := c :: rest.takeWhile isSpaceChar ++ rawNumber
            tokenizeAux fuel (afterWs.drop len)
              (Token.number (usdValue value) (String.mk rawTok) :: tokens)
        else Except.error "Expected number after $"
    else if isIdentStart c then
      let identRest := rest.takeWhile isIdentChar
      tokenizeAux fuel (rest.dropWhile isIdentChar)
        (Token.ident (String.mk (c :: identRest)) :: tokens)
    else if c.isDigit || c = '.' then
      let len := scanNumericToken (c :: rest)
      let raw := (c :: rest).take len
      match parseNumericLiteral raw with
      | Option.none => Except.error ("Invalid number: " ++ String.mk raw)
      | some value =>
        tokenizeAux fuel ((c :: rest).drop len)
          (Token.number (numberValue value) (String.mk raw) :: tokens)
    else Except.error ("Unexpected character: " ++ String.mk [c])

/-- `function tokenize(input): Token[] | EvalResult`: whole-line tokenizer. -/
def tokenize (input : List Char) : Except String (List Token) :=
  tokenizeAux (input.length + 1) input []

/-- `type Expr`: the expression tree. -/
inductive Expr where
  | number (value : Value)
  | ident (name : String)
  | call (name : String) (args : List Expr)
  | unary (op : Op) (expr : Expr)
  | binary (op : Op) (left : Expr) (right : Expr)
deriving Repr

/-- The `token.type` string used in the `Unexpected token:` message. -/
def tokenTypeName : Token → String
  | Token.number _ _ => "number"
  | Token.ident _ => "ident"
  | Token.op _ => "op"
  | Token.lparen => "lparen"
  | Token.rparen => "rparen"
  | Token.comma => "comma"

/-- The parser's work items, one per function of the source's
recursive-descent `parse`: `expression` covers `parseExpression`/`parseAddSub`
(the former is a direct alias of the latter), `addSubLoop`/`mulDivLoop` are
the `while` loops holding the left operand built so far, and `callArgs` is
the argument loop of the call case of `parsePrimary` holding the arguments
parsed so far. -/
inductive PJob where
  | expression
  | addSubLoop (left : Expr)
  | mulDiv
  | mulDivLoop (left : Expr)
  | unary
  | pow
  | primary
  | callArgs (name : String) (acc : List Expr)

/-- The recursive-descent parser of `function parse(tokens)`.  The source
advances an index through the token array inside mutually recursive local
functions; here each level consumes from an explicit token list and returns
the unconsumed suffix, and the mutual recursion is folded into one function
dispatching on the `PJob` work item.  `fuel` stands for the recursion's
progress: every cycle through the precedence ladder first consumes a token,
so the generous top-level fuel of `parse` never runs out and the `0` branch
is unreachable. -/
def parseStep : ℕ → PJob → List Token → Except String (Expr × List Token)
  | 0, _, _ => Except.error "Unexpected end of input"
  | fuel + 1, job, ts =>
    match job with
    | PJob.expression => do
      let (left, rest) ← parseStep fuel PJob.mulDiv ts
      parseStep fuel (PJob.addSubLoop left) rest
    | PJob.addSubLoop left =>
      match ts with
      | Token.op Op.add :: rest => do
        let (right, r) ← parseStep fuel PJob.mulDiv rest
        parseStep fuel (PJob.addSubLoop (Expr.binary Op.add left right)) r
      | Token.op Op.sub :: rest => do
        let (right, r) ← parseStep fuel PJob.mulDiv rest
        parseStep fuel (PJob.addSubLoop (Expr.binary Op.sub left right)) r
      | _ => Except.ok (left, ts)
    | PJob.mulDiv => do
      let (left, rest) ← parseStep fuel PJob.unary ts
      parseStep fuel (PJob.mulDivLoop left) rest
    | PJob.mulDivLoop left =>
      match ts with
      | Token.op Op.mul :: rest => do
        let (right, r) ← parseStep fuel PJob.unary rest
        parseStep fuel (PJob.mulDivLoop (Expr.binary Op.mul left right)) r
      | Token.op Op.div :: rest => do
        let (right, r) ← parseStep fuel PJob.unary rest
        parseStep fuel (PJob.mulDivLoop (Expr.binary Op.div left right)) r
      | _ => Except.ok (left, ts)
    | PJob.unary =>
      match ts with
      | Token.op Op.add :: rest => do
        let (expr, r) ← parseStep fuel PJob.unary rest
        Except.ok (Expr.unary Op.add expr, r)
      | Token.op Op.sub :: rest => do
        let (expr, r) ← parseStep fuel PJob.unary rest
        Except.ok (Expr.unary Op.sub expr, r)
      | _ => parseStep fuel PJob.pow ts
    | PJob.pow => do
      let (left, rest) ← parseStep fuel PJob.primary ts
      match rest with
      | Token.op Op.pow :: rest2 => do
        let (right, r) ← parseStep fuel PJob.pow rest2
        Except.ok (Expr.binary Op.pow left right, r)
      | _ => Except.ok (left, rest)
    | PJob.primary =>
      match ts with
      | [] => Except.error "Unexpected end of input"
      | Token.number value _ :: rest => Except.ok (Expr.number value, rest)
      | Token.ident name :: Token.lparen :: Token.rparen :: rest3 =>
        Except.ok (Expr.call name [], rest3)
      | Token.ident name :: Token.lparen :: rest2 =>
        parseStep fuel (PJob.callArgs name []) rest2
      | Token.ident name :: rest => Except.ok (Expr.ident name, rest)
      | Token.lparen :: rest => do
        let (expr, r) ← parseStep fuel PJob.expression rest
        match r with
        | Token.rparen :: r2 => Except.ok (expr, r2)
        | _ => Except.error "Missing closing )"
      | t :: _ => Except.error ("Unexpected token: " ++ tokenTypeName t)
    | PJob.callArgs name acc => do
      let (expr, r) ← parseStep fuel PJob.expression ts
      match r with
      | Token.comma :: r2 => parseStep fuel (PJob.callArgs name (acc ++ [expr])) r2
      | Token.rparen :: r2 => Except.ok (Expr.call name (acc ++ [expr]), r2)
      | _ => Except.error "Missing closing )"

/-- `function parse(tokens): Expr | EvalResult`: parse a full expression and
reject trailing tokens. -/
def parse (tokens : List Token) : Except String Expr :=
  match parseStep (10 * (tokens.length + 1)) PJob.expression tokens with
  | Except.error e => Except.error e
  | Except.ok (expr, rest) =>
    match rest with
    | [] => Except.ok expr
    | _ :: _ => Except.error "Unexpected trailing input"

/-- The variable environment `Map<string, Value>`: lookups see the most
recent binding of a name. -/
def Env := List (String × Value)

/-- `env.get(name)`. -/
def envGet (env : Env) (name : String) : Option Value :=
  (env.find? (fun p => p.1 = name)).map (·.2)

/-- `env.set(name, value)`. -/
def envSet (env : Env) (name : String) (value : Value) : Env :=
  (name, value) :: env

/-- `Math.round` on exact rationals: JS rounds halves toward `+∞`. -/
def jsRound (x : ℚ) : ℚ := (⌊x + 1 / 2⌋ : ℤ)

/-- The arity-mismatch message `` `${name} expects ${count} argument(s)` ``. -/
def expectArityMsg (name : String) (count : ℕ) : String :=
  name ++ " expects " ++ toString count ++ " argument" ++ (if count = 1 then "" else "s")

/-- `coercePairUnits` from the call case of `evalExpr`: the same one-sided
promotion as `+`, or the `Unit mismatch` error. -/
def coercePairUnits (left right : Value) : Except EvalResult (Value × Value) :=
  if left.unit = right.unit then Except.ok (left, right)
  else if left.unit = Unit.none then
    Except.ok ({ amount := left.amount, unit := right.unit }, right)
  else if right.unit = Unit.none then
    Except.ok (left, { amount := right.amount, unit := left.unit })
  else Except.error (EvalResult.error "Unit mismatch")

/-- The function-call dispatch at the end of the call case of `evalExpr`,
applied once the arguments have been evaluated: `max`/`min` with arity 2 and
pair unit coercion, `round`/`ceil`/`floor` with arity 1 preserving the unit,
and the unknown-function error. -/
def evalCall (name : String) (evaluatedArgs : List Value) : EvalResult :=
  if name = "max" ∨ name = "min" then
    match evaluatedArgs with
    | [left, right] =>
      match coercePairUnits left right with
      | Except.error r => r
      | Except.ok (l, r) =>
        let winner :=
          if name = "max" then (if l.amount ≥ r.amount then l else r)
          else (if l.amount ≤ r.amount then l else r)
        EvalResult.value winner
    | _ => EvalResult.error (expectArityMsg name 2)
  else if name = "round" ∨ name = "ceil" ∨ name = "floor" then
    match evaluatedArgs with
    | [input] =>
      let amount : ℚ :=
        if name = "round" then jsRound input.amount
        else if name = "ceil" then (⌈input.amount⌉ : ℤ)
        else (⌊input.amount⌋ : ℤ)
      EvalResult.value { unit := input.unit, amount := amount }
    | _ => EvalResult.error (expectArityMsg name 1)
  else EvalResult.error ("Unknown function: " ++ name)

mutual

/-- `function evalExpr(expr, env): EvalResult`: bottom-up tree walk,
short-circuiting on the first non-value result. -/
def evalExpr (e : Expr) (env : Env) : EvalResult :=
  match e with
  | Expr.number value => EvalResult.value value
  | Expr.ident name =>
    match envGet env name with
    | Option.none => EvalResult.error ("Undefined variable: " ++ name)
    | some value => EvalResult.value value
  | Expr.call name args =>
    match evalArgs args env with
    | Except.error r => r
    | Except.ok evaluatedArgs => evalCall name evaluatedArgs
  | Expr.unary op expr =>
    match evalExpr expr env with
    | EvalResult.value v => EvalResult.value (evalUnary op v)
    | r => r
  | Expr.binary op left right =>
    match evalExpr left env with
    | EvalResult.value l =>
      match evalExpr right env with
      | EvalResult.value r => evalBinary op l r
      | r => r
    | l => l

/-- The argument-evaluation loop of the call case: left to right, returning
the first non-value result unchanged. -/
def evalArgs (es : List Expr) (env : Env) : Except EvalResult (List Value) :=
  match es with
  | [] => Except.ok []
  | e :: rest =>
    match evalExpr e env with
    | EvalResult.value v => (evalArgs rest env).map (fun vs => v :: vs)
    | r => Except.error r

end

/-- Whitespace stripped by JS `String.prototype.trim` (restricted to the
whitespace characters that occur in calculator documents). -/
def isJsSpace (c : Char) : Bool := c = ' ' || c = '\t' || c = '\n' || c = '\r'

/-- `source.trim()` on explicit character lists. -/
def jsTrim (cs : List Char) : List Char :=
  ((cs.dropWhile isJsSpace).reverse.dropWhile isJsSpace).reverse

/-- `export function evaluateExpression(source, env)`: trim, tokenize, parse,
evaluate. -/
def evaluateExpression (source : String) (env : Env := []) : EvalResult :=
  let trimmed := jsTrim source.data
  if trimmed = [] then EvalResult.empty
  else
    match tokenize trimmed with
    | Except.error e => EvalResult.error e
    | Except.ok tokens =>
      match parse tokens with
      | Except.error e => EvalResult.error e
      | Except.ok ast => evalExpr ast env

/-- The character of a decimal digit. -/
def digitChar (d : ℕ) : Char := Char.ofNat (48 + d)

/-- Decimal digits of a positive natural number, most significant first.
`fuel` bounds the digit count (`n + 1` always suffices). -/
def natDigitsAux : ℕ → ℕ → List Char
  | 0, _ => []
  | fuel + 1, n => if n = 0 then [] else natDigitsAux fuel (n / 10) ++ [digitChar (n % 10)]

/-- The decimal rendering of a natural number. -/
def natToChars (n : ℕ) : List Char := if n = 0 then ['0'] else natDigitsAux (n + 1) n

/-- The decimal rendering of an integer (JS `String` on an integral double). -/
def intToChars (i : ℤ) : List Char :=
  (if i < 0 then ['-'] else []) ++ natToChars i.natAbs

/-- Search loop of `log10floorPos` for arguments below `1`: the smallest
`k ≥ 1` with `x * 10 ^ k ≥ 1`. -/
def smallExpAux : ℕ → ℚ → ℕ → ℕ
  | 0, _, k => k
  | fuel + 1, x, k => if x * 10 ^ k ≥ 1 then k else smallExpAux fuel x (k + 1)

/-- `⌊log10 x⌋` for positive rational `x`: the exponent of the leading decimal
digit, as used by `toExponential`/`toPrecision`. -/
def log10floorPos (x : ℚ) : ℤ :=
  if x ≥ 1 then ((natToChars ⌊x⌋.toNat).length - 1 : ℕ)
  else -(smallExpAux ((natToChars x.den).length + 1) x 1 : ℕ)

/-- Rounding to the closest integer, ties toward the larger value: the rule
ECMAScript's number-to-decimal conversions apply to the scaled magnitude. -/
def roundHalfUp (x : ℚ) : ℤ := ⌊x + 1 / 2⌋

/-- `value.toExponential(fracDigits)`, split as the source does into the
mantissa text (sign included) and the numeric exponent.  Exact decimal
rounding of the rational argument stands in for the double's decimal
conversion. -/
def jsToExponential (x : ℚ) (fracDigits : ℕ) : List Char × ℤ :=
  if x = 0 then (('0' :: if fracDigits = 0 then [] else '.' :: List.replicate fracDigits '0'), 0)
  else
    let sign : List Char := if x < 0 then ['-'] else []
    let a := |x|
    let e := log10floorPos a
    let d := (roundHalfUp (a / (10 : ℚ) ^ e * 10 ^ fracDigits)).toNat
    let (d, e) := if d = 10 ^ (fracDigits + 1) then (10 ^ fracDigits, e + 1) else (d, e)
    let ds := natToChars d
    (sign ++ ds.take 1 ++ (if fracDigits = 0 then [] else '.' :: ds.drop 1), e)

/-- The effect of the source's mantissa cleanup
`.replace(/\.0+$/, '').replace(/(\.\d*?)0+$/, '$1')` on decimal texts that
carry a fraction part: trailing fraction zeros go, and a dot left bare goes
with them. -/
def trimTrailingFracZeros (cs : List Char) : List Char :=
  if cs.contains '.' then
    let stripped := (cs.reverse.dropWhile (fun c => c = '0')).reverse
    if stripped.getLast? = some '.' then stripped.dropLast else stripped
  else cs

/-- The regex `\B(?=(\d{3})+(?!\d))` of `addThousandsSeparators`: a comma
lands between two digits whenever the digits that follow are a positive
multiple of three. -/
def insertCommas : List Char → List Char
  | [] => []
  | c :: rest =>
    c ::
      (if c.isDigit ∧ rest ≠ [] ∧ rest.all Char.isDigit ∧ rest.length % 3 = 0 then
        ',' :: insertCommas rest
      else insertCommas rest)

/-- `addThousandsSeparators` from `formatAmount`: split off the fraction,
comma-group the integer part, restore the fraction. -/
def addThousandsSeparators (cs : List Char) : List Char :=
  let parts := cs.splitOn '.'
  let integer := parts.headD []
  let fraction? := parts[1]?
  let withCommas := insertCommas integer
  match fraction? with
  | Option.none => withCommas
  | some fraction => withCommas ++ '.' :: fraction

/-- `Number.isSafeInteger(value)` on exact rationals. -/
def isSafeInteger (x : ℚ) : Prop := x.den = 1 ∧ |x.num| ≤ 2 ^ 53 - 1

instance : DecidablePred isSafeInteger := fun x =>
  inferInstanceAs (Decidable (x.den = 1 ∧ |x.num| ≤ 2 ^ 53 - 1))

/-- `value.toPrecision(15)` (precision `p` in general), under the same exact
decimal-rounding idealisation as `jsToExponential`: exponential form when the
decimal exponent falls below `-7` or reaches `p`, fixed form otherwise, both
with exactly `p` significant digits. -/
def jsToPrecision (x : ℚ) (p : ℕ) : List Char :=
  if x = 0 then '0' :: (if p = 1 then [] else '.' :: List.replicate (p - 1) '0')
  else
    let sign : List Char := if x < 0 then ['-'] else []
    let a := |x|
    let e := log10floorPos a
    let d := (roundHalfUp (a / (10 : ℚ) ^ e * 10 ^ (p - 1))).toNat
    let (d, e) := if d = 10 ^ p then (10 ^ (p - 1), e + 1) else (d, e)
    let ds := natToChars d
    if e < -6 ∨ e ≥ (p : ℤ) then
      sign ++ ds.take 1 ++ (if p = 1 then [] else '.' :: ds.drop 1) ++
        ['e'] ++ (if e ≥ 0 then '+' :: natToChars e.toNat else '-' :: natToChars (-e).toNat)
    else if e ≥ 0 then
      sign ++ ds.take (e.toNat + 1) ++
        (if (e.toNat + 1 : ℕ) < p then '.' :: ds.drop (e.toNat + 1) else [])
    else
      sign ++ '0' :: '.' :: List.replicate (-(e + 1)).toNat '0' ++ ds

/-- `function formatAmount(value: number): string`.  The `Number.isFinite`
guard of the source is vacuous on exact rationals. -/
def formatAmount (value : ℚ) : List Char :=
  if value = 0 then ['0']
  else
    let abs := |value|
    if abs ≥ 1000000000 ∨ abs < 1 / 1000000000 then
      let (mantissaRaw, exponent) := jsToExponential value 6
      trimTrailingFracZeros mantissaRaw ++ 'e' :: intToChars exponent
    else if isSafeInteger value then addThousandsSeparators (intToChars value.num)
    else
      let text := jsToPrecision value 15
      if ¬ text.contains 'e' ∧ text.contains '.' then
        addThousandsSeparators (trimTrailingFracZeros text)
      else addThousandsSeparators text

/-- `export function formatValue(value: Value): string`: plain amounts via
`formatAmount`, `usd` amounts via the currency path (2 fixed decimals,
omitted when `.00`, comma grouping, 3-significant-digit scientific fallback
for extreme magnitudes). -/
def formatValue (value : Value) : String :=
  if value.unit ≠ Unit.usd then String.mk (formatAmount value.amount)
  else
    let sign : List Char := if value.amount < 0 then ['-'] else []
    let abs := |value.amount|
    if abs ≥ 1000000000 ∨ abs < 1 / 1000000000 then
      let (mantissaRaw, exponent) := jsToExponential abs 2
      let mantissa :=
        if mantissaRaw.takeWhile (fun c => c ≠ '.') ++ ['.', '0', '0'] = mantissaRaw then
          mantissaRaw.takeWhile (fun c => c ≠ '.')
        else mantissaRaw
      String.mk (sign ++ '$' :: mantissa ++ 'e' :: intToChars exponent)
    else
      let d := (roundHalfUp (abs * 100)).toNat
      let integer := insertCommas (natToChars (d / 100))
      let fraction := natToChars (d % 100)
      let fraction := if (d % 100) < 10 then '0' :: fraction else fraction
      if d % 100 = 0 then String.mk (sign ++ '$' :: integer)
      else String.mk (sign ++ '$' :: integer ++ '.' :: fraction)

/-- `type ParseStatementResult` from the statement parser. -/
inductive ParseStatementResult where
  | empty
  | expr (exprSource : String)
  | assign (name : String) (exprSource : String)
  | error (error : String)
deriving DecidableEq, Repr

/-- The `identifierPattern` regex `^[A-Za-z_][A-Za-z0-9_]*$`. -/
def identMatches (cs : List Char) : Bool :=
  match cs with
  | [] => false
  | c :: rest => isIdentStart c && rest.all isIdentChar

/-- `function parseStatement(source: string): ParseStatementResult`: classify
a line as empty, plain expression, or assignment split at the first `=`. -/
def parseStatement (source : String) : ParseStatementResult :=
  if jsTrim source.data = [] then ParseStatementResult.empty
  else
    let cs := source.data
    match cs.findIdx? (fun c => c = '=') with
    | Option.none => ParseStatementResult.expr source
    | some equalsIndex =>
      let left := jsTrim (cs.take equalsIndex)
      let right := cs.drop (equalsIndex + 1)
      if ¬ identMatches left then ParseStatementResult.error "Invalid assignment target"
      else if jsTrim right = [] then ParseStatementResult.error "Missing assignment expression"
      else if right.contains '=' then
        ParseStatementResult.error "Unexpected trailing = in assignment"
      else ParseStatementResult.assign (String.mk left) (String.mk right)

/-- `type LineEvaluation` from the line evaluator `program.ts`. -/
inductive LineEvaluation where
  | empty
  | expr (result : EvalResult)
  | assign (name : String) (result : EvalResult)
  | error (error : String)
deriving DecidableEq, Repr

/-- Modelled from the spec: the shipped revision of `evaluateLine` with
`Value`-typed environments and the reserved-name guard is absent from the
sources — only its unit test (expecting
`evaluateLine('total = 2', env)` to equal the
`Cannot assign to reserved name: total` error) and its caller in the editor
are present, alongside an older `number`-typed revision without the guard.
Modelled after that older revision plus the spec's Statement Parser rule
"Assigning to the reserved name `total` ⇒ `Cannot assign to reserved name:
total`": classify the line, reject the reserved target, otherwise evaluate
and, on a successful assignment, bind the name.  The updated environment is
returned alongside the result (the source mutates the caller's map). -/
def evaluateLine (code : String) (env : Env) : LineEvaluation × Env :=
  match parseStatement code with
  | ParseStatementResult.empty => (LineEvaluation.empty, env)
  | ParseStatementResult.error e => (LineEvaluation.error e, env)
  | ParseStatementResult.expr exprSource =>
    (LineEvaluation.expr (evaluateExpression exprSource env), env)
  | ParseStatementResult.assign name exprSource =>
    if name = "total" then
      (LineEvaluation.error "Cannot assign to reserved name: total", env)
    else
      let result := evaluateExpression exprSource env
      match result with
      | EvalResult.value v => (LineEvaluation.assign name result, envSet env name v)
      | _ => (LineEvaluation.assign name result, env)

/-- `type InlineAstNode` from the document splitter `ast.ts`. -/
inductive InlineAstNode where
  | code (text : String)
  | comment (text : String)
deriving DecidableEq, Repr

/-- `type LineAst`: the inline nodes of one line. -/
structure LineAst where
  nodes : List InlineAstNode
deriving DecidableEq, Repr

/-- `function findInlineCommentStartIndex(raw)`: the first `#` that starts
the line or follows a whitespace character; other `#` occurrences do not
open a comment. -/
def findInlineCommentAux : Option Char → ℕ → List Char → Option ℕ
  | _, _, [] => Option.none
  | prev, i, c :: rest =>
    if c = '#' ∧ (i = 0 ∨ (prev.map isJsSpace).getD false = true) then some i
    else findInlineCommentAux (some c) (i + 1) rest

/-- Entry point of `findInlineCommentStartIndex` (the source returns `-1`
for "no comment", modelled as `Option.none`). -/
def findInlineCommentStartIdx (raw : List Char) : Option ℕ :=
  findInlineCommentAux Option.none 0 raw

/-- `function parseLine(raw: string): LineAst`: full-line comment, plain code
line, or code followed by an inline comment. -/
def parseLine (raw : String) : LineAst :=
  if (raw.data.dropWhile isJsSpace).headD ' ' = '#' then
    { nodes := [InlineAstNode.comment raw] }
  else
    match findInlineCommentStartIdx raw.data with
    | Option.none => { nodes := [InlineAstNode.code raw] }
    | some commentIndex =>
      let before := raw.data.take commentIndex
      let after := raw.data.drop commentIndex
      { nodes :=
          (if before ≠ [] then [InlineAstNode.code (String.mk before)] else []) ++
            [InlineAstNode.comment (String.mk after)] }

/-- `function parseDocument(source)`: split on newlines, parse each line. -/
def parseDocument (source : String) : List LineAst :=
  (source.data.splitOn '\n').map (fun cs => parseLine (String.mk cs))

/-- `getLineCode` from the editor: the concatenated code-node text of a
line. -/
def getLineCode (line : LineAst) : String :=
  String.join (line.nodes.filterMap (fun n =>
    match n with
    | InlineAstNode.code text => some text
    | InlineAstNode.comment _ => Option.none))

/-- The state threaded through the editor's `sync` pass: the variable
environment and the running block total. -/
structure SyncState where
  env : Env
  blockTotal : Value

/-- One line of the evaluation core of the editor's `sync` pass, translated
from `createEditor.ts`: reset the block total on a blank non-comment line,
expose it as `total`, evaluate the line, and fold a successful value into
the block total via `addValues` unless the line is exactly the bare `total`
expression.  The editor-focus machinery of `sync` (the active-line
assignment fallback, the `lastValid*` display arrays and the error-reveal
bookkeeping) only affects what is displayed while a line is being edited,
never the computed results; it is the `hasFocus = false` behaviour — the
plain full-document pass — that is modelled here, so those parts drop out.
The returned `EvalResult` is the line's `resultKind` together with its value
or error message. -/
def syncLine (state : SyncState) (line : LineAst) : SyncState × EvalResult :=
  let code := getLineCode line
  let hasComment := line.nodes.any (fun n =>
    match n with
    | InlineAstNode.comment _ => true
    | InlineAstNode.code _ => false)
  let isEmptyLineBreak := ¬ hasComment ∧ jsTrim code.data = []
  let blockTotal :=
    if isEmptyLineBreak then { amount := 0, unit := Unit.none } else state.blockTotal
  let env := envSet state.env "total" blockTotal
  let isTotalOnlyExpression := jsTrim code.data = "total".data
  let (evaluation, env) := evaluateLine code env
  let outcome : EvalResult :=
    match evaluation with
    | LineEvaluation.empty => EvalResult.empty
    | LineEvaluation.expr result => result
    | LineEvaluation.assign _ result => result
    | LineEvaluation.error e => EvalResult.error e
  let valueForTotal : Option Value :=
    match evaluation with
    | LineEvaluation.expr (EvalResult.value v) => some v
    | LineEvaluation.assign _ (EvalResult.value v) => some v
    | _ => Option.none
  let blockTotal :=
    match valueForTotal with
    | some v =>
      if ¬ isTotalOnlyExpression then
        match addValues blockTotal v with
        | EvalResult.value nv => nv
        | _ => blockTotal
      else blockTotal
    | Option.none => blockTotal
  ({ env := env, blockTotal := blockTotal }, outcome)

/-- The fold of `syncLine` over the document's lines. -/
def syncLinesAux : SyncState → List LineAst → List EvalResult
  | _, [] => []
  | state, line :: rest =>
    let (state2, outcome) := syncLine state line
    outcome :: syncLinesAux state2 rest

/-- The full-document evaluation pass of `sync`: fresh environment, block
total starting at `{0, none}`, one result per line. -/
def syncEvaluate (source : String) : List EvalResult :=
  syncLinesAux { env := [], blockTotal := { amount := 0, unit := Unit.none } }
    (parseDocument source)

end CalcLang

namespace UnitCatalog

open CalcLang (jsTrim)

/-- `normalizeUnitWord`: trim and lowercase. -/
def normalizeUnitWord (raw : String) : String :=
  String.mk ((jsTrim raw.data).map Char.toLower)

/-- The `prefixByWord` table: `sq`/`square` ↦ 2, `cu`/`cubic`/`cb` ↦ 3. -/
def prefixByWord (word : String) : Option ℕ :=
  if word = "sq" ∨ word = "square" then some 2
  else if word = "cu" ∨ word = "cubic" ∨ word = "cb" then some 3
  else Option.none

/-- `normalizeBaseUnitWord`: plural and full-name aliases down to canonical
unit words, or `null` for words that name no unit. -/
def normalizeBaseUnitWord (raw : String) : Option String :=
  let word := normalizeUnitWord raw
  if word = "m" ∨ word = "meter" ∨ word = "meters" ∨ word = "metre" ∨ word = "metres" then
    some "m"
  else if word = "cm" ∨ word = "centimeter" ∨ word = "centimeters" then some "cm"
  else if word = "mm" ∨ word = "millimeter" ∨ word = "millimeters" then some "mm"
  else if word = "km" ∨ word = "kilometer" ∨ word = "kilometers" then some "km"
  else if word = "inch" ∨ word = "inches" then some "inch"
  else if word = "ft" ∨ word = "foot" ∨ word = "feet" then some "ft"
  else if word = "yd" ∨ word = "yard" ∨ word = "yards" then some "yd"
  else if word = "mi" ∨ word = "mile" ∨ word = "miles" then some "mi"
  else if word = "l" ∨ word = "liter" ∨ word = "liters" ∨ word = "litre" ∨ word = "litres" then
    some "l"
  else if word = "ml" ∨ word = "milliliter" ∨ word = "milliliters" then some "ml"
  else if word = "gal" ∨ word = "gallon" ∨ word = "gallons" then some "gal"
  else if word = "qt" ∨ word = "quart" ∨ word = "quarts" then some "qt"
  else if word = "pt" ∨ word = "pint" ∨ word = "pints" then some "pt"
  else if word = "cup" ∨ word = "cups" then some "cup"
  else if word = "tbsp" ∨ word = "tablespoon" ∨ word = "tablespoons" then some "tbsp"
  else if word = "tsp" ∨ word = "teaspoon" ∨ word = "teaspoons" then some "tsp"
  else if word = "hectare" ∨ word = "hectares" then some "hectare"
  else if word = "acre" ∨ word = "acres" then some "acre"
  else if word = "are" ∨ word = "ares" then some "are"
  else if word = "k" ∨ word = "kelvin" ∨ word = "kelvins" then some "k"
  else if word = "c" ∨ word = "celsius" then some "c"
  else if word = "f" ∨ word = "fahrenheit" then some "f"
  else Option.none

/-- The `parsePowerSuffix` regex `^([a-z]+)([23])$/i`: letters followed by a
single `2` or `3`. -/
def parsePowerSuffix (raw : String) : Option (String × ℕ) :=
  let cs := raw.data
  match cs.getLast? with
  | some '2' =>
    if cs.dropLast ≠ [] ∧ cs.dropLast.all Char.isAlpha then
      some (normalizeUnitWord (String.mk cs.dropLast), 2)
    else Option.none
  | some '3' =>
    if cs.dropLast ≠ [] ∧ cs.dropLast.all Char.isAlpha then
      some (normalizeUnitWord (String.mk cs.dropLast), 3)
    else Option.none
  | _ => Option.none

/-- Base words excluded from the power-prefixed and power-suffixed forms
(special areas, temperatures, special volumes). -/
def isPowerExcludedBase (base : String) : Prop :=
  base = "hectare" ∨ base = "acre" ∨ base = "are" ∨
    base = "k" ∨ base = "c" ∨ base = "f" ∨
      base = "l" ∨ base = "ml" ∨ base = "gal" ∨ base = "qt" ∨ base = "pt"

instance : DecidablePred isPowerExcludedBase := fun _ =>
  inferInstanceAs (Decidable (_ ∨ _))

/-- `export function parseUnitWords(words)`: bare unit word, power-prefixed
(`sq cm`, `cubic m`; when the base word itself carries a power suffix the two
powers must agree), or power-suffixed (`cm2`, `m3`), with the number of words
consumed. -/
def parseUnitWords (words : List String) : Option (String × ℕ) :=
  match words with
  | [] => Option.none
  | w0 :: restWords =>
    let first := normalizeUnitWord w0
    match prefixByWord first with
    | some prefixPower =>
      match restWords with
      | [] => Option.none
      | baseWordRaw :: _ =>
        match parsePowerSuffix baseWordRaw with
        | some (suffixBase, suffixPower) =>
          match normalizeBaseUnitWord suffixBase with
          | Option.none => Option.none
          | some base =>
            if suffixPower ≠ prefixPower then Option.none
            else some (base ++ toString prefixPower, 2)
        | Option.none =>
          match normalizeBaseUnitWord baseWordRaw with
          | Option.none => Option.none
          | some base =>
            if isPowerExcludedBase base then Option.none
            else some (base ++ toString prefixPower, 2)
    | Option.none =>
      match parsePowerSuffix first with
      | some (suffixBase, suffixPower) =>
        match normalizeBaseUnitWord suffixBase with
        | Option.none => Option.none
        | some base =>
          if isPowerExcludedBase base then Option.none
          else some (base ++ toString suffixPower, 1)
      | Option.none =>
        match normalizeBaseUnitWord first with
        | Option.none => Option.none
        | some base => some (base, 1)

/-- `type TemperatureInfo`: a temperature unit's conversions to and from
Kelvin (the constant `kind: 'temperature'` tag is implicit in the type). -/
structure TemperatureInfo where
  unit : String
  toKelvin : ℚ → ℚ
  fromKelvin : ℚ → ℚ
  display : String

/-- `export function tryGetTemperatureInfo(unit)`: the catalog's three
temperature units `k`, `c`, `f` with their affine Kelvin conversions. -/
def tryGetTemperatureInfo (unit : String) : Option TemperatureInfo :=
  let key := normalizeUnitWord unit
  if key = "k" then
    some { unit := "k", toKelvin := fun x => x, fromKelvin := fun k => k, display := "K" }
  else if key = "c" then
    some
      { unit := "c", toKelvin := fun x => x + 273.15, fromKelvin := fun k => k - 273.15
        display := "°C" }
  else if key = "f" then
    some
      { unit := "f", toKelvin := fun x => (x - 32) * (5 / 9) + 273.15
        fromKelvin := fun k => (k - 273.15) * (9 / 5) + 32, display := "°F" }
  else Option.none

end UnitCatalog

section Theorems

open CalcLang

/-- C5: binary `/` returns `Division by zero` whenever the divisor's amount
is `0`, regardless of either operand's unit; otherwise a unit-`none` divisor
yields a quotient carrying the dividend's unit, equal units on both sides
(the non-`none` case of the claim) yield a unit-`none` quotient, and in every
remaining case — the divisor carrying a unit the dividend does not match —
the result is the `Unit mismatch` error. -/
theorem c5_division_by_zero_and_units (left right : Value) :
    (right.amount = 0 → evalBinary Op.div left right = EvalResult.error "Division by zero") ∧
    (right.amount ≠ 0 → right.unit = Unit.none →
      evalBinary Op.div left right =
        EvalResult.value { amount := left.amount / right.amount, unit := left.unit }) ∧
    (right.amount ≠ 0 → right.unit ≠ Unit.none → left.unit = right.unit →
      evalBinary Op.div left right =
        EvalResult.value { amount := left.amount / right.amount, unit := Unit.none }) ∧
    (right.amount ≠ 0 → right.unit ≠ Unit.none → left.unit ≠ right.unit →
      evalBinary Op.div left right = EvalResult.error "Unit mismatch") := by
  refine ⟨fun h0 => ?_, fun h0 hu => ?_, fun h0 hu he => ?_, fun h0 hu hne => ?_⟩
  · simp [evalBinary, h0]
  · simp [evalBinary, h0, hu]
  · simp [evalBinary, h0, hu, he]
  · simp [evalBinary, h0, hu, hne]

/-- Witness for C5 at concrete inputs, one per satisfiable case. -/
theorem c5_division_witness :
    evalBinary Op.div { amount := 1, unit := Unit.usd } { amount := 0, unit := Unit.none } =
      EvalResult.error "Division by zero" ∧
    evalBinary Op.div { amount := 6, unit := Unit.usd } { amount := 2, unit := Unit.none } =
      EvalResult.value { amount := 6 / 2, unit := Unit.usd } ∧
    evalBinary Op.div { amount := 6, unit := Unit.usd } { amount := 2, unit := Unit.usd } =
      EvalResult.value { amount := 6 / 2, unit := Unit.none } ∧
    evalBinary Op.div { amount := 6, unit := Unit.none } { amount := 2, unit := Unit.usd } =
      EvalResult.error "Unit mismatch" :=
  ⟨(c5_division_by_zero_and_units _ _).1 rfl,
    (c5_division_by_zero_and_units _ _).2.1 (by decide) rfl,
    (c5_division_by_zero_and_units _ _).2.2.1 (by decide) (by decide) rfl,
    (c5_division_by_zero_and_units _ _).2.2.2 (by decide) (by decide) (by decide)⟩

/-- C6: `+` with a unitless operand on either side promotes it to the other
operand's unit, amounts add, and the two orders agree; in particular `$1 + 2`
and `2 + $1` both evaluate to `$3`. -/
theorem c6_unit_promotion_commutative :
    (∀ v w : Value, w.unit = Unit.none →
      evalBinary Op.add v w =
          EvalResult.value { amount := v.amount + w.amount, unit := v.unit } ∧
        evalBinary Op.add w v =
          EvalResult.value { amount := v.amount + w.amount, unit := v.unit }) ∧
    evaluateExpression "$1 + 2" = EvalResult.value { amount := 3, unit := Unit.usd } ∧
    evaluateExpression "2 + $1" = EvalResult.value { amount := 3, unit := Unit.usd } := by
  refine ⟨fun v w hw => ?_, ?_, ?_⟩
  · rcases hv : v.unit with _ | _ <;> simp [evalBinary, hw, hv, add_comm]
  · show evalExpr
        (Expr.binary Op.add (Expr.number (usdValue 1)) (Expr.number (numberValue 2))) [] = _
    simp [evalExpr, evalBinary, usdValue, numberValue]
    norm_num
  · show evalExpr
        (Expr.binary Op.add (Expr.number (numberValue 2)) (Expr.number (usdValue 1))) [] = _
    simp [evalExpr, evalBinary, usdValue, numberValue]
    norm_num

/-- Witness for C6 at a concrete unit-bearing/unitless pair. -/
theorem c6_unit_promotion_witness :
    evalBinary Op.add { amount := 1, unit := Unit.usd } { amount := 2, unit := Unit.none } =
      EvalResult.value { amount := 1 + 2, unit := Unit.usd } ∧
    evalBinary Op.add { amount := 2, unit := Unit.none } { amount := 1, unit := Unit.usd } =
      EvalResult.value { amount := 1 + 2, unit := Unit.usd } :=
  c6_unit_promotion_commutative.1 { amount := 1, unit := Unit.usd }
    { amount := 2, unit := Unit.none } rfl

/-- C2: a line whose assignment target is the reserved name `total` evaluates
to the `Cannot assign to reserved name: total` error and leaves the
environment unchanged (the variable is not bound). -/
theorem c2_reserved_total (code : String) (env : Env) (exprSource : String)
    (h : parseStatement code = ParseStatementResult.assign "total" exprSource) :
    evaluateLine code env =
      (LineEvaluation.error "Cannot assign to reserved name: total", env) := by
  unfold evaluateLine
  rw [h]
  simp

/-- Witness for C2: the line `total = 2`. -/
theorem c2_reserved_total_witness :
    evaluateLine "total = 2" [] =
      (LineEvaluation.error "Cannot assign to reserved name: total", []) :=
  c2_reserved_total "total = 2" [] " 2" (by decide)

/-- C10: each temperature unit of the catalog (`c`, `f`, `k`) has `toKelvin`
and `fromKelvin` that are mutual inverses over exact rational arithmetic. -/
theorem c10_temperature_inverses (u : String) (info : UnitCatalog.TemperatureInfo)
    (h : UnitCatalog.tryGetTemperatureInfo u = some info) :
    ∀ x : ℚ, info.fromKelvin (info.toKelvin x) = x ∧ info.toKelvin (info.fromKelvin x) = x := by
  intro x
  simp only [UnitCatalog.tryGetTemperatureInfo] at h
  split at h
  · cases h; constructor <;> norm_num
  · split at h
    · cases h; constructor <;> norm_num
    · split at h
      · cases h
        constructor <;> simp only [] <;> ring
      · cases h

/-- Witness for C10: Celsius at `25`. -/
theorem c10_temperature_witness :
    ((25 : ℚ) + 273.15) - 273.15 = 25 ∧ ((25 : ℚ) - 273.15) + 273.15 = 25 :=
  c10_temperature_inverses "c"
    { unit := "c", toKelvin := fun x => x + 273.15, fromKelvin := fun k => k - 273.15
      display := "°C" }
    rfl 25

/-- C9: unit-word parsing accepts the bare, power-prefixed and power-suffixed
forms; a power prefix combined with a power-suffixed base word yields a unit
exactly when the two powers agree (`sq cm2` parses to `cm2`, `sq cm3` is
rejected); and every accepted form consumes one or two words — the three
listed shapes. -/
theorem c9_unit_word_forms :
    UnitCatalog.parseUnitWords ["m"] = some ("m", 1) ∧
    UnitCatalog.parseUnitWords ["sq", "cm"] = some ("cm2", 2) ∧
    UnitCatalog.parseUnitWords ["cubic", "m"] = some ("m3", 2) ∧
    UnitCatalog.parseUnitWords ["cm2"] = some ("cm2", 1) ∧
    UnitCatalog.parseUnitWords ["m3"] = some ("m3", 1) ∧
    UnitCatalog.parseUnitWords ["sq", "cm2"] = some ("cm2", 2) ∧
    UnitCatalog.parseUnitWords ["sq", "cm3"] = Option.none ∧
    (∀ (w0 baseWord : String) (rest : List String) (p : ℕ),
      UnitCatalog.prefixByWord (UnitCatalog.normalizeUnitWord w0) = some p →
      ∀ (b : String) (q : ℕ), UnitCatalog.parsePowerSuffix baseWord = some (b, q) → q ≠ p →
        UnitCatalog.parseUnitWords (w0 :: baseWord :: rest) = Option.none) ∧
    (∀ (words : List String) (unit : String) (consumed : ℕ),
      UnitCatalog.parseUnitWords words = some (unit, consumed) →
        consumed = 1 ∨ consumed = 2) := by
  refine ⟨by decide, by decide, by decide, by decide, by decide, by decide, by decide,
    ?_, ?_⟩
  · intro w0 baseWord rest p hp b q hs hqp
    simp only [UnitCatalog.parseUnitWords, hp, hs]
    split
    · rfl
    · simp [hqp]
  · intro words unit consumed h
    rcases words with _ | ⟨w0, restWords⟩
    · simp [UnitCatalog.parseUnitWords] at h
    · simp only [UnitCatalog.parseUnitWords] at h
      repeat' split at h
      all_goals simp_all

/-- Witness for C9: the concrete prefix/suffix disagreement `sq cm3` and the
bare form `m`. -/
theorem c9_unit_word_witness :
    UnitCatalog.parseUnitWords ["sq", "cm3"] = Option.none ∧ ((1 : ℕ) = 1 ∨ (1 : ℕ) = 2) :=
  ⟨c9_unit_word_forms.2.2.2.2.2.2.2.1 "sq" "cm3" [] 2 (by decide) "cm" 3 (by decide)
      (by decide),
    c9_unit_word_forms.2.2.2.2.2.2.2.2 ["m"] "m" 1 (by decide)⟩

/-- C3: the precedence ladder — binary `+ -` lowest, then `* /`, then prefix
unary `+ -`, then right-associative `^` binding above unary — shown by the
parse trees the parser builds for the claim's expressions, and the claimed
evaluations `4 + 4 / 2 = 6`, `2 * 3 + 4 = 10`, `2 ^ 3 ^ 2 = 512`,
`-2 ^ 2 = -4` and `(-2) ^ 2 = 4`. -/
theorem c3_precedence_ladder :
    evaluateExpression "4 + 4 / 2" = EvalResult.value { amount := 6, unit := Unit.none } ∧
    evaluateExpression "2 * 3 + 4" = EvalResult.value { amount := 10, unit := Unit.none } ∧
    evaluateExpression "2 ^ 3 ^ 2" = EvalResult.value { amount := 512, unit := Unit.none } ∧
    evaluateExpression "-2 ^ 2" = EvalResult.value { amount := -4, unit := Unit.none } ∧
    evaluateExpression "(-2) ^ 2" = EvalResult.value { amount := 4, unit := Unit.none } ∧
    parse [Token.number (numberValue 4) "4", Token.op Op.add, Token.number (numberValue 4) "4",
        Token.op Op.div, Token.number (numberValue 2) "2"] =
      Except.ok (Expr.binary Op.add (Expr.number (numberValue 4))
        (Expr.binary Op.div (Expr.number (numberValue 4)) (Expr.number (numberValue 2)))) ∧
    parse [Token.number (numberValue 2) "2", Token.op Op.mul, Token.number (numberValue 3) "3",
        Token.op Op.add, Token.number (numberValue 4) "4"] =
      Except.ok (Expr.binary Op.add
        (Expr.binary Op.mul (Expr.number (numberValue 2)) (Expr.number (numberValue 3)))
        (Expr.number (numberValue 4))) ∧
    parse [Token.number (numberValue 2) "2", Token.op Op.pow, Token.number (numberValue 3) "3",
        Token.op Op.pow, Token.number (numberValue 2) "2"] =
      Except.ok (Expr.binary Op.pow (Expr.number (numberValue 2))
        (Expr.binary Op.pow (Expr.number (numberValue 3)) (Expr.number (numberValue 2)))) ∧
    parse [Token.op Op.sub, Token.number (numberValue 2) "2", Token.op Op.pow,
        Token.number (numberValue 2) "2"] =
      Except.ok (Expr.unary Op.sub
        (Expr.binary Op.pow (Expr.number (numberValue 2)) (Expr.number (numberValue 2)))) ∧
    parse [Token.lparen, Token.op Op.sub, Token.number (numberValue 2) "2", Token.rparen,
        Token.op Op.pow, Token.number (numberValue 2) "2"] =
      Except.ok (Expr.binary Op.pow (Expr.unary Op.sub (Expr.number (numberValue 2)))
        (Expr.number (numberValue 2))) := by
  refine ⟨?_, ?_, ?_, ?_, ?_, rfl, rfl, rfl, rfl, rfl⟩
  · show evalExpr
        (Expr.binary Op.add (Expr.number (numberValue 4))
          (Expr.binary Op.div (Expr.number (numberValue 4)) (Expr.number (numberValue 2)))) [] = _
    simp [evalExpr, evalBinary, numberValue]
    norm_num
  · show evalExpr
        (Expr.binary Op.add
          (Expr.binary Op.mul (Expr.number (numberValue 2)) (Expr.number (numberValue 3)))
          (Expr.number (numberValue 4))) [] = _
    simp [evalExpr, evalBinary, numberValue]
    norm_num
  · show evalExpr
        (Expr.binary Op.pow (Expr.number (numberValue 2))
          (Expr.binary Op.pow (Expr.number (numberValue 3)) (Expr.number (numberValue 2)))) [] = _
    simp [evalExpr, evalBinary, jsPow, numberValue]
    norm_num
  · show evalExpr
        (Expr.unary Op.sub
          (Expr.binary Op.pow (Expr.number (numberValue 2)) (Expr.number (numberValue 2)))) [] = _
    simp [evalExpr, evalBinary, evalUnary, jsPow, numberValue]
    norm_num
  · show evalExpr
        (Expr.binary Op.pow (Expr.unary Op.sub (Expr.number (numberValue 2)))
          (Expr.number (numberValue 2))) [] = _
    simp [evalExpr, evalBinary, evalUnary, jsPow, numberValue]
    norm_num

/-- Number-literal argument lists evaluate to their values. -/
theorem evalArgs_map_number (vs : List Value) (env : Env) :
    evalArgs (vs.map Expr.number) env = Except.ok vs := by
  induction vs with
  | nil => simp [evalArgs]
  | cons v rest ih =>
    simp [evalArgs, evalExpr, ih, Except.map]

/-- The arity-mismatch message, spelled out. -/
theorem expectArityMsg_two (name : String) :
    expectArityMsg name 2 = name ++ " expects 2 arguments" := by
  simp [expectArityMsg, String.append_assoc]
  rfl

/-- The singular arity-mismatch message, spelled out. -/
theorem expectArityMsg_one (name : String) :
    expectArityMsg name 1 = name ++ " expects 1 argument" := by
  simp [expectArityMsg, String.append_assoc]
  rfl

/-- C7: `max`/`min` take exactly 2 arguments, coerce units by the same
one-sided promotion as `+` and pick the argument with the larger (resp.
smaller) amount; `round`/`ceil`/`floor` take exactly 1 argument, apply their
rounding rule to the amount and preserve the unit; a wrong argument count
gives `<name> expects <n> argument(s)`; an unknown function name gives
`Unknown function: <name>`; and `max($5, 7)` evaluates to `$7`. -/
theorem c7_function_calls :
    (∀ (a b : Value) (env : Env),
      a.unit = b.unit ∨ a.unit = Unit.none ∨ b.unit = Unit.none →
      evalExpr (Expr.call "max" [Expr.number a, Expr.number b]) env =
        EvalResult.value
          { amount := if a.amount ≥ b.amount then a.amount else b.amount
            unit := if a.unit = Unit.none then b.unit else a.unit }) ∧
    (∀ (a b : Value) (env : Env),
      a.unit = b.unit ∨ a.unit = Unit.none ∨ b.unit = Unit.none →
      evalExpr (Expr.call "min" [Expr.number a, Expr.number b]) env =
        EvalResult.value
          { amount := if a.amount ≤ b.amount then a.amount else b.amount
            unit := if a.unit = Unit.none then b.unit else a.unit }) ∧
    (∀ (name : String) (vs : List Value) (env : Env),
      name = "max" ∨ name = "min" → vs.length ≠ 2 →
      evalExpr (Expr.call name (vs.map Expr.number)) env =
        EvalResult.error (name ++ " expects 2 arguments")) ∧
    (∀ (v : Value) (env : Env),
      evalExpr (Expr.call "round" [Expr.number v]) env =
          EvalResult.value { amount := ((⌊v.amount + 1 / 2⌋ : ℤ) : ℚ), unit := v.unit } ∧
        evalExpr (Expr.call "ceil" [Expr.number v]) env =
          EvalResult.value { amount := ((⌈v.amount⌉ : ℤ) : ℚ), unit := v.unit } ∧
        evalExpr (Expr.call "floor" [Expr.number v]) env =
          EvalResult.value { amount := ((⌊v.amount⌋ : ℤ) : ℚ), unit := v.unit }) ∧
    (∀ (name : String) (vs : List Value) (env : Env),
      name = "round" ∨ name = "ceil" ∨ name = "floor" → vs.length ≠ 1 →
      evalExpr (Expr.call name (vs.map Expr.number)) env =
        EvalResult.error (name ++ " expects 1 argument")) ∧
    (∀ (name : String) (vs : List Value) (env : Env),
      name ≠ "max" → name ≠ "min" → name ≠ "round" → name ≠ "ceil" → name ≠ "floor" →
      evalExpr (Expr.call name (vs.map Expr.number)) env =
        EvalResult.error ("Unknown function: " ++ name)) ∧
    evaluateExpression "max($5, 7)" = EvalResult.value { amount := 7, unit := Unit.usd } := by
  refine ⟨fun a b env _hu => ?_, fun a b env _hu => ?_, fun name vs env hn hlen => ?_,
    fun v env => ⟨?_, ?_, ?_⟩, fun name vs env hn hlen => ?_,
    fun name vs env h1 h2 h3 h4 h5 => ?_, ?_⟩
  · have h := evalArgs_map_number [a, b] env
    simp only [List.map] at h
    rcases a with ⟨aa, au⟩
    rcases b with ⟨ba, bu⟩
    rcases au <;> rcases bu <;>
        simp [evalExpr, h, evalCall, coercePairUnits, ge_iff_le] <;>
      first
      | rfl
      | (split_ifs <;> simp_all)
  · have h := evalArgs_map_number [a, b] env
    simp only [List.map] at h
    rcases a with ⟨aa, au⟩
    rcases b with ⟨ba, bu⟩
    rcases au <;> rcases bu <;>
        simp [evalExpr, h, evalCall, coercePairUnits] <;>
      first
      | rfl
      | (split_ifs <;> simp_all)
  · have h := evalArgs_map_number vs env
    rcases vs with _ | ⟨x, _ | ⟨y, _ | ⟨z, rest⟩⟩⟩ <;> rcases hn with hn | hn <;> subst hn <;>
      first
      | (exact absurd rfl hlen)
      | simp_all [evalExpr, evalCall, expectArityMsg_two]
  · have h := evalArgs_map_number [v] env
    simp only [List.map] at h
    simp [evalExpr, h, evalCall, jsRound]
  · have h := evalArgs_map_number [v] env
    simp only [List.map] at h
    simp [evalExpr, h, evalCall]
  · have h := evalArgs_map_number [v] env
    simp only [List.map] at h
    simp [evalExpr, h, evalCall]
  · have h := evalArgs_map_number vs env
    rcases vs with _ | ⟨x, _ | rest⟩ <;> rcases hn with hn | hn | hn <;> subst hn <;>
      first
      | (exact absurd rfl hlen)
      | simp_all [evalExpr, evalCall, expectArityMsg_one]
  · have h := evalArgs_map_number vs env
    simp [evalExpr, h, evalCall, h1, h2, h3, h4, h5]
  · show evalExpr
        (Expr.call "max" [Expr.number (usdValue 5), Expr.number (numberValue 7)]) [] = _
    have h := evalArgs_map_number [usdValue 5, numberValue 7] []
    simp only [List.map, usdValue, numberValue] at h
    simp [evalExpr, h, evalCall, coercePairUnits, usdValue, numberValue]
    norm_num

/-- Witness for C7: `max($5, 7)` as call node, a 1-argument `max`, a
2-argument `round`, a rounded value, and an unknown function. -/
theorem c7_function_calls_witness :
    evalExpr (Expr.call "max" [Expr.number { amount := 5, unit := Unit.usd },
        Expr.number { amount := 7, unit := Unit.none }]) [] =
      EvalResult.value { amount := 7, unit := Unit.usd } ∧
    evalExpr (Expr.call "min" [Expr.number { amount := 5, unit := Unit.usd },
        Expr.number { amount := 7, unit := Unit.none }]) [] =
      EvalResult.value { amount := 5, unit := Unit.usd } ∧
    evalExpr (Expr.call "max" [Expr.number { amount := 1, unit := Unit.none }]) [] =
      EvalResult.error "max expects 2 arguments" ∧
    evalExpr (Expr.call "round" [Expr.number { amount := 3, unit := Unit.usd }]) [] =
      EvalResult.value { amount := ((⌊(3 : ℚ) + 1 / 2⌋ : ℤ) : ℚ), unit := Unit.usd } ∧
    evalExpr (Expr.call "round" [Expr.number { amount := 1, unit := Unit.none },
        Expr.number { amount := 2, unit := Unit.none }]) [] =
      EvalResult.error "round expects 1 argument" ∧
    evalExpr (Expr.call "foo" []) [] = EvalResult.error "Unknown function: foo" := by
  refine ⟨?_, ?_, ?_, ?_, ?_, ?_⟩
  · have h := c7_function_calls.1 { amount := 5, unit := Unit.usd }
      { amount := 7, unit := Unit.none } [] (Or.inr (Or.inr rfl))
    rw [h]
    decide
  · have h := c7_function_calls.2.1 { amount := 5, unit := Unit.usd }
      { amount := 7, unit := Unit.none } [] (Or.inr (Or.inr rfl))
    rw [h]
    decide
  · exact c7_function_calls.2.2.1 "max" [{ amount := 1, unit := Unit.none }] []
      (Or.inl rfl) (by decide)
  · exact (c7_function_calls.2.2.2.1 { amount := 3, unit := Unit.usd } []).1
  · exact c7_function_calls.2.2.2.2.1 "round"
      [{ amount := 1, unit := Unit.none }, { amount := 2, unit := Unit.none }] []
      (Or.inl rfl) (by decide)
  · exact c7_function_calls.2.2.2.2.2.1 "foo" [] [] (by decide) (by decide) (by decide)
      (by decide) (by decide)

/-- A blank line classifies as `empty`. -/
theorem parseStatement_of_blank (code : String) (h : jsTrim code.data = []) :
    parseStatement code = ParseStatementResult.empty := by
  unfold parseStatement
  rw [if_pos h]

/-- A blank line evaluates to `empty` and leaves the environment alone. -/
theorem evaluateLine_of_blank (code : String) (env : Env) (h : jsTrim code.data = []) :
    evaluateLine code env = (LineEvaluation.empty, env) := by
  unfold evaluateLine
  rw [parseStatement_of_blank code h]

/-- Number literals evaluate to their values. -/
theorem evalExpr_number (v : Value) (env : Env) :
    evalExpr (Expr.number v) env = EvalResult.value v := by
  simp [evalExpr]

/-- A bound identifier evaluates to its value. -/
theorem evalExpr_ident_of_get (env : Env) (name : String) (v : Value)
    (h : envGet env name = some v) :
    evalExpr (Expr.ident name) env = EvalResult.value v := by
  simp [evalExpr, h]

/-- C4: in a full-document pass the running block total starts at `{0, none}`,
is reset to `{0, none}` by a line that is blank and not a comment, is
preserved by comment-only lines and by lines that error, is not folded when
the line's expression is exactly the bare identifier `total`, and otherwise
absorbs each successful line value through `addValues` (the `+` promotion
rule); the document `1 +` / `2` / `total` / `total` yields per line
(error), 2, 2, 2. -/
theorem c4_block_total :
    (∀ (state : SyncState) (line : LineAst),
      (line.nodes.any fun n => match n with
        | InlineAstNode.comment _ => true
        | InlineAstNode.code _ => false) = false →
      jsTrim (getLineCode line).data = [] →
      (syncLine state line).1.blockTotal = { amount := 0, unit := Unit.none } ∧
        (syncLine state line).2 = EvalResult.empty) ∧
    (∀ (state : SyncState) (line : LineAst),
      (line.nodes.any fun n => match n with
        | InlineAstNode.comment _ => true
        | InlineAstNode.code _ => false) = true →
      jsTrim (getLineCode line).data = [] →
      (syncLine state line).1.blockTotal = state.blockTotal) ∧
    (∀ (state : SyncState) (line : LineAst) (e : String),
      (syncLine state line).2 = EvalResult.error e →
      (syncLine state line).1.blockTotal = state.blockTotal) ∧
    (∀ (state : SyncState) (line : LineAst),
      jsTrim (getLineCode line).data = ("total" : String).data →
      (syncLine state line).1.blockTotal = state.blockTotal) ∧
    (∀ (state : SyncState) (line : LineAst) (v nv : Value),
      (syncLine state line).2 = EvalResult.value v →
      jsTrim (getLineCode line).data ≠ ("total" : String).data →
      addValues state.blockTotal v = EvalResult.value nv →
      (syncLine state line).1.blockTotal = nv) ∧
    syncEvaluate "1 +\n2\ntotal\ntotal\n" =
      [EvalResult.error "Unexpected end of input",
        EvalResult.value { amount := 2, unit := Unit.none },
        EvalResult.value { amount := 2, unit := Unit.none },
        EvalResult.value { amount := 2, unit := Unit.none },
        EvalResult.empty] := by
  refine ⟨fun state line hnc htrim => ?_, fun state line hc htrim => ?_,
    fun state line e herr => ?_, fun state line htot => ?_,
    fun state line v nv hval htot haddv => ?_, ?_⟩
  · simp only [syncLine, hnc, htrim, evaluateLine_of_blank _ _ htrim]
    simp
  · simp only [syncLine, hc, htrim, evaluateLine_of_blank _ _ htrim]
    simp
  · by_cases htrim : jsTrim (getLineCode line).data = []
    · have hemp : (syncLine state line).2 = EvalResult.empty := by
        simp [syncLine, evaluateLine_of_blank _ _ htrim]
      rw [hemp] at herr
      simp at herr
    · simp only [syncLine, htrim, and_false, if_false] at herr ⊢
      rcases hev : evaluateLine (getLineCode line) (envSet state.env "total" state.blockTotal)
        with ⟨evaluation, env2⟩
      cases evaluation <;> simp_all
  · have htrim : ¬ jsTrim (getLineCode line).data = [] := by
      rw [htot]; decide
    have hne : ¬ (("total" : String).data = ([] : List Char)) := by decide
    simp only [syncLine, htot, hne, and_false, if_false, not_true, ite_false]
    split <;> rfl
  · by_cases htrim : jsTrim (getLineCode line).data = []
    · have hemp : (syncLine state line).2 = EvalResult.empty := by
        simp [syncLine, evaluateLine_of_blank _ _ htrim]
      rw [hemp] at hval
      simp at hval
    · simp only [syncLine, htrim, and_false, if_false] at hval ⊢
      rcases hev : evaluateLine (getLineCode line) (envSet state.env "total" state.blockTotal)
        with ⟨evaluation, env2⟩
      cases evaluation <;> simp_all [htot]
  · have e1 : ∀ env : Env, evaluateLine "1 +" env =
        (LineEvaluation.expr (EvalResult.error "Unexpected end of input"), env) := fun env => rfl
    have e2 : ∀ env : Env, evaluateLine "2" env =
        (LineEvaluation.expr (EvalResult.value { amount := 2, unit := Unit.none }), env) := by
      intro env
      show (LineEvaluation.expr
        (evalExpr (Expr.number { amount := 2, unit := Unit.none }) env), env) = _
      rw [evalExpr_number]
    have e3 : ∀ env : Env, evaluateLine "total" env =
        (LineEvaluation.expr (evalExpr (Expr.ident "total") env), env) := fun env => rfl
    have e4 : ∀ env : Env, evaluateLine "" env = (LineEvaluation.empty, env) := fun env => rfl
    have haddv : addValues { amount := 0, unit := Unit.none } { amount := 2, unit := Unit.none } =
        EvalResult.value { amount := 2, unit := Unit.none } := by
      norm_num [addValues, evalBinary]
    have h2ne : ¬ (jsTrim ("2" : String).data = []) := by decide
    have h1ne : ¬ (jsTrim ("1 +" : String).data = []) := by decide
    have htne : ¬ (jsTrim ("total" : String).data = []) := by decide
    have h2nt : ¬ (jsTrim ("2" : String).data = ("total" : String).data) := by decide
    have h1nt : ¬ (jsTrim ("1 +" : String).data = ("total" : String).data) := by decide
    have htt : jsTrim ("total" : String).data = ("total" : String).data := by decide
    unfold syncEvaluate
    rw [show parseDocument "1 +\n2\ntotal\ntotal\n" =
      [{ nodes := [InlineAstNode.code "1 +"] }, { nodes := [InlineAstNode.code "2"] },
        { nodes := [InlineAstNode.code "total"] }, { nodes := [InlineAstNode.code "total"] },
        { nodes := [InlineAstNode.code ""] }] from rfl]
    simp only [syncLinesAux, syncLine,
      show getLineCode { nodes := [InlineAstNode.code "1 +"] } = "1 +" from rfl,
      show getLineCode { nodes := [InlineAstNode.code "2"] } = "2" from rfl,
      show getLineCode { nodes := [InlineAstNode.code "total"] } = "total" from rfl,
      show getLineCode { nodes := [InlineAstNode.code ""] } = "" from rfl,
      e1, e2, e3, e4, h2ne, h1ne, htne, h2nt, h1nt, htt,
      show jsTrim ("" : String).data = [] from rfl]
    simp only [List.any_cons, List.any_nil, envSet, haddv]
    norm_num
    simp [haddv, evalExpr_ident_of_get, envGet, List.find?]

/-- Witness for C4: a blank line resets a `$5` block total, a comment-only
line and an erroring line and a bare-`total` line preserve it, and a line
evaluating to `2` folds into it. -/
theorem c4_block_total_witness :
    ((syncLine { env := [], blockTotal := { amount := 5, unit := Unit.usd } }
        { nodes := [InlineAstNode.code ""] }).1.blockTotal =
          { amount := 0, unit := Unit.none } ∧
      (syncLine { env := [], blockTotal := { amount := 5, unit := Unit.usd } }
        { nodes := [InlineAstNode.code ""] }).2 = EvalResult.empty) ∧
    (syncLine { env := [], blockTotal := { amount := 5, unit := Unit.usd } }
        { nodes := [InlineAstNode.comment "# note"] }).1.blockTotal =
      { amount := 5, unit := Unit.usd } ∧
    (syncLine { env := [], blockTotal := { amount := 5, unit := Unit.usd } }
        { nodes := [InlineAstNode.code "1 +"] }).1.blockTotal =
      { amount := 5, unit := Unit.usd } ∧
    (syncLine { env := [], blockTotal := { amount := 5, unit := Unit.usd } }
        { nodes := [InlineAstNode.code "total"] }).1.blockTotal =
      { amount := 5, unit := Unit.usd } ∧
    (syncLine { env := [], blockTotal := { amount := 5, unit := Unit.usd } }
        { nodes := [InlineAstNode.code "2"] }).1.blockTotal =
      { amount := 5 + 2, unit := Unit.usd } := by
  refine ⟨c4_block_total.1 _ _ (by decide) (by decide), ?_, ?_, ?_, ?_⟩
  · exact c4_block_total.2.1 _ _ (by decide) (by decide)
  · exact c4_block_total.2.2.1 _ _ "Unexpected end of input" rfl
  · exact c4_block_total.2.2.2.1 _ _ (by decide)
  · refine c4_block_total.2.2.2.2.1 _ _ { amount := 2, unit := Unit.none }
      { amount := 5 + 2, unit := Unit.usd } ?_ (by decide) rfl
    show evalExpr (Expr.number { amount := 2, unit := Unit.none })
      [("total", { amount := 5, unit := Unit.usd })] = _
    simp [evalExpr]

/-- A digit character is not a comma. -/
theorem ne_comma_of_isDigit {c : Char} (h : c.isDigit = true) : ¬ (c = ',') := by
  intro hc
  subst hc
  exact absurd h (by decide)

/-- A digit character is not a dot. -/
theorem ne_dot_of_isDigit {c : Char} (h : c.isDigit = true) : ¬ (c = '.') := by
  intro hc
  subst hc
  exact absurd h (by decide)

/-- `digitChar` produces digit characters. -/
theorem digitChar_isDigit {d : ℕ} (h : d < 10) : (digitChar d).isDigit = true := by
  interval_cases d <;> decide

/-- The code point of `digitChar`. -/
theorem digitChar_toNat {d : ℕ} (h : d < 10) : (digitChar d).toNat = 48 + d := by
  interval_cases d <;> decide

/-- Every character `natDigitsAux` emits is a digit. -/
theorem natDigitsAux_all_isDigit (fuel n : ℕ) :
    (natDigitsAux fuel n).all Char.isDigit = true := by
  induction fuel generalizing n with
  | zero => simp [natDigitsAux]
  | succ f ih =>
    unfold natDigitsAux
    split
    · simp
    · simp only [List.all_append, Bool.and_eq_true, ih]
      simp [digitChar_isDigit (Nat.mod_lt _ (by norm_num))]

/-- With enough fuel, a positive number renders to a nonempty digit list. -/
theorem natDigitsAux_ne_nil {fuel n : ℕ} (hn : 0 < n) (hf : n ≤ fuel) :
    natDigitsAux fuel n ≠ [] := by
  cases fuel with
  | zero => omega
  | succ f =>
    unfold natDigitsAux
    rw [if_neg (by omega)]
    simp

/-- Appending one digit multiplies the accumulated value by ten. -/
theorem digitsVal_append_singleton (xs : List Char) (c : Char) :
    digitsVal (xs ++ [c]) = 10 * digitsVal xs + (c.toNat - '0'.toNat) := by
  simp [digitsVal, List.foldl_append]

/-- `natDigitsAux` renders the decimal expansion: folding the digits back
recovers the number. -/
theorem digitsVal_natDigitsAux (fuel : ℕ) : ∀ n : ℕ, n ≤ fuel →
    digitsVal (natDigitsAux fuel n) = n := by
  induction fuel with
  | zero =>
    intro n hn
    interval_cases n
    simp [natDigitsAux, digitsVal]
  | succ f ih =>
    intro n hn
    unfold natDigitsAux
    split
    · simp [digitsVal]
      omega
    · rw [digitsVal_append_singleton, ih (n / 10) (by omega),
        show ('0' : Char).toNat = 48 from rfl, digitChar_toNat (Nat.mod_lt _ (by norm_num))]
      omega

/-- `natToChars` facts packaged: digits only, nonempty, value recovered. -/
theorem natToChars_spec (n : ℕ) :
    (natToChars n).all Char.isDigit = true ∧ natToChars n ≠ [] ∧
      digitsVal (natToChars n) = n := by
  unfold natToChars
  split
  · subst n
    exact ⟨by decide, by decide, by decide⟩
  · exact ⟨natDigitsAux_all_isDigit _ _,
      natDigitsAux_ne_nil (by omega) (by omega),
      digitsVal_natDigitsAux _ _ (by omega)⟩

/-- `insertCommas` only adds commas: every character of the output is a
character of the input or a comma. -/
theorem mem_insertCommas {ds : List Char} {c : Char} (h : c ∈ insertCommas ds) :
    c ∈ ds ∨ c = ',' := by
  induction ds with
  | nil => simp [insertCommas] at h
  | cons d rest ih =>
    unfold insertCommas at h
    simp only [List.mem_cons] at h
    rcases h with h | h
    · exact Or.inl (h ▸ List.mem_cons_self _ _)
    · split at h
      · simp only [List.mem_cons] at h
        rcases h with h | h
        · exact Or.inr h
        · rcases ih h with h | h
          · exact Or.inl (List.mem_cons_of_mem _ h)
          · exact Or.inr h
      · rcases ih h with h | h
        · exact Or.inl (List.mem_cons_of_mem _ h)
        · exact Or.inr h

/-- Dropping the commas from `insertCommas` output recovers the input. -/
theorem filter_insertCommas {ds : List Char} (hd : ds.all Char.isDigit = true) :
    (insertCommas ds).filter (fun c => c ≠ ',') = ds := by
  induction ds with
  | nil => simp [insertCommas]
  | cons d rest ih =>
    have hdd : d.isDigit = true := by
      simp only [List.all_cons, Bool.and_eq_true] at hd
      exact hd.1
    have hrest : rest.all Char.isDigit = true := by
      simp only [List.all_cons, Bool.and_eq_true] at hd
      exact hd.2
    have ihr := ih hrest
    unfold insertCommas
    split <;> simp_all [List.filter_cons, ne_comma_of_isDigit hdd]

/-- `insertCommas` output of a digit list contains no dot. -/
theorem splitOn_dot_insertCommas {ds : List Char} (hd : ds.all Char.isDigit = true) :
    (insertCommas ds).splitOn '.' = [insertCommas ds] := by
  refine List.splitOnP_eq_single _ _ ?_
  intro x hx
  rcases mem_insertCommas hx with h | h
  · simp only [List.all_eq_true] at hd
    simpa using ne_dot_of_isDigit (hd x h)
  · subst h
    decide

/-- The comma grouping `insertCommas` produces on a nonempty digit list:
every group is a nonempty digit run, the first group's length is the input
length modulo 3 (or 3), and every later group is exactly 3 digits. -/
theorem splitOn_comma_insertCommas :
    ∀ ds : List Char, ds ≠ [] → ds.all Char.isDigit = true →
    (∀ g ∈ (insertCommas ds).splitOn ',', g ≠ [] ∧ g.all Char.isDigit = true) ∧
      (((insertCommas ds).splitOn ',').headD []).length =
        (if ds.length % 3 = 0 then 3 else ds.length % 3) ∧
      (∀ g ∈ ((insertCommas ds).splitOn ',').tail, g.length = 3) := by
  intro ds
  induction ds with
  | nil => intro h; exact absurd rfl h
  | cons d rest ih =>
    intro _ hd
    have hdd : d.isDigit = true := by
      simp only [List.all_cons, Bool.and_eq_true] at hd
      exact hd.1
    have hrest : rest.all Char.isDigit = true := by
      simp only [List.all_cons, Bool.and_eq_true] at hd
      exact hd.2
    have hdnc : (d == ',') = false := by
      simpa using ne_comma_of_isDigit hdd
    by_cases hrne : rest = []
    · subst hrne
      have hsingle : insertCommas [d] = [d] := by
        unfold insertCommas
        simp [insertCommas]
      rw [hsingle]
      rw [show ([d] : List Char).splitOn ',' = [[d]] from
        List.splitOnP_eq_single _ _ (by simpa using ne_comma_of_isDigit hdd)]
      refine ⟨?_, by simp, by simp⟩
      intro g hg
      simp only [List.mem_singleton] at hg
      subst hg
      exact ⟨by simp, by simp [hdd]⟩
    · have ihr := ih hrne hrest
      rcases hg' : (insertCommas rest).splitOn ',' with _ | ⟨g1, gtl⟩
      · exact absurd hg' (List.splitOnP_ne_nil _ _)
      rw [hg'] at ihr
      simp only [List.headD_cons, List.tail_cons] at ihr
      by_cases hmod : rest.length % 3 = 0
      · have hic : insertCommas (d :: rest) = d :: ',' :: insertCommas rest := by
          conv_lhs => unfold insertCommas
          rw [if_pos ⟨hdd, hrne, hrest, hmod⟩]
        have hgs : (insertCommas (d :: rest)).splitOn ',' = [d] :: g1 :: gtl := by
          rw [hic]
          simp only [List.splitOn, List.splitOnP_cons, hdnc, Bool.false_eq_true, if_false,
            beq_self_eq_true, if_true]
          rw [show (insertCommas rest).splitOnP (fun c => c == ',') = g1 :: gtl from hg']
          simp [List.modifyHead]
        rw [hgs]
        refine ⟨?_, ?_, ?_⟩
        · intro g hg
          simp only [List.mem_cons] at hg
          rcases hg with rfl | rfl | hg
          · exact ⟨by simp, by simp [hdd]⟩
          · exact ihr.1 _ (by simp)
          · exact ihr.1 _ (by simp [hg])
        · simp only [List.headD_cons, List.length_cons, List.length_singleton,
            List.length_nil]
          rw [if_neg (by omega)]
          omega
        · intro g hg
          simp only [List.tail_cons, List.mem_cons] at hg
          rcases hg with rfl | hg
          · rw [if_pos hmod] at ihr
            exact ihr.2.1
          · exact ihr.2.2 g hg
      · have hic : insertCommas (d :: rest) = d :: insertCommas rest := by
          conv_lhs => unfold insertCommas
          rw [if_neg (by simp [hmod])]
        have hgs : (insertCommas (d :: rest)).splitOn ',' = (d :: g1) :: gtl := by
          rw [hic]
          simp only [List.splitOn, List.splitOnP_cons, hdnc, Bool.false_eq_true, if_false]
          rw [show (insertCommas rest).splitOnP (fun c => c == ',') = g1 :: gtl from hg']
          simp [List.modifyHead]
        rw [hgs]
        refine ⟨?_, ?_, ?_⟩
        · intro g hg
          simp only [List.mem_cons] at hg
          rcases hg with rfl | hg
          · have hh := ihr.1 g1 (by simp)
            exact ⟨by simp, by simp [hdd, hh.2]⟩
          · exact ihr.1 _ (by simp [hg])
        · have hlen := ihr.2.1
          rw [if_neg hmod] at hlen
          simp only [List.headD_cons, List.length_cons, hlen]
          split_ifs <;> omega
        · intro g hg
          simp only [List.tail_cons] at hg
          exact ihr.2.2 g hg

/-- `Number` of a nonempty plain digit string is its decimal value. -/
theorem jsNumber_digits {ds : List Char} (hne : ds ≠ []) (hd : ds.all Char.isDigit = true) :
    jsNumber ds = some ((digitsVal ds : ℕ) : ℚ) := by
  unfold jsNumber
  rw [if_neg (by simpa using hne)]
  rw [show ds.splitOn '.' = [ds] from
    List.splitOnP_eq_single _ _ (by
      intro x hx
      simp only [List.all_eq_true] at hd
      simpa using ne_dot_of_isDigit (hd x hx))]
  show (if ds ≠ [] ∧ ds.all Char.isDigit = true then some ((digitsVal ds : ℕ) : ℚ)
    else Option.none) = _
  rw [if_pos ⟨hne, hd⟩]

/-- `parseNumericLiteral` accepts the comma grouping `insertCommas` lays down
and recovers the digit string's value. -/
theorem parseNumericLiteral_insertCommas {ds : List Char} (hne : ds ≠ [])
    (hd : ds.all Char.isDigit = true) :
    parseNumericLiteral (insertCommas ds) = some ((digitsVal ds : ℕ) : ℚ) := by
  have hfilter := filter_insertCommas hd
  have hjs : jsNumber ((insertCommas ds).filter (fun c => c ≠ ',')) =
      some ((digitsVal ds : ℕ) : ℚ) := by
    rw [hfilter]
    exact jsNumber_digits hne hd
  unfold parseNumericLiteral
  split
  · rw [splitOn_dot_insertCommas hd]
    simp only [List.headD_cons, List.getElem?_cons_zero, List.getElem?_nil]
    obtain ⟨hgne, hghead, hgtail⟩ := splitOn_comma_insertCommas ds hne hd
    rw [if_neg (by simp)]
    rw [if_neg (by
      simp only [List.any_eq_true, not_exists, not_and]
      intro g hg
      simp [List.isEmpty_iff, (hgne g hg).1])]
    rw [if_neg (by
      rcases hgs : (insertCommas ds).splitOn ',' with _ | ⟨g1, gtl⟩
      · exact absurd hgs (List.splitOnP_ne_nil _ _)
      rw [hgs] at hghead
      simp only [List.headD_cons] at hghead ⊢
      rw [hghead]
      have h3 : ds.length % 3 < 3 := Nat.mod_lt _ (by norm_num)
      split_ifs <;> omega)]
    rw [if_neg (by
      simp only [List.drop_one, List.any_eq_true, not_exists, not_and]
      intro g hg
      rcases hgs : (insertCommas ds).splitOn ',' with _ | ⟨g1, gtl⟩
      · exact absurd hgs (List.splitOnP_ne_nil _ _)
      rw [hgs] at hgtail hg
      simp only [List.tail_cons] at hgtail hg
      simp [hgtail g hg])]
    exact hjs
  · exact hjs

/-- On a plain digit string (no dot), `addThousandsSeparators` is just the
comma-grouping regex. -/
theorem addThousandsSeparators_digits {ds : List Char} (hd : ds.all Char.isDigit = true) :
    addThousandsSeparators ds = insertCommas ds := by
  unfold addThousandsSeparators
  rw [show ds.splitOn '.' = [ds] from
    List.splitOnP_eq_single _ _ (by
      intro x hx
      simp only [List.all_eq_true] at hd
      simpa using ne_dot_of_isDigit (hd x hx))]
  simp

/-- For a positive integer amount below the scientific threshold,
`formatAmount` renders the decimal digits with thousands separators. -/
theorem formatAmount_nat {n : ℕ} (h0 : 0 < n) (hlt : n < 1000000000) :
    formatAmount (n : ℚ) = insertCommas (natToChars n) := by
  have habs : |(n : ℚ)| = (n : ℚ) := abs_of_nonneg (Nat.cast_nonneg n)
  have hub : ((n : ℚ)) < 1000000000 := by exact_mod_cast hlt
  have hlb : (1 : ℚ) ≤ (n : ℚ) := by exact_mod_cast h0
  unfold formatAmount
  rw [if_neg (by exact_mod_cast h0.ne')]
  rw [if_neg (by
    rw [habs]
    push_neg
    constructor
    · exact hub
    · linarith [show (1 : ℚ) / 1000000000 < 1 by norm_num])]
  rw [if_pos (by
    refine ⟨by simp, ?_⟩
    rw [Rat.num_natCast]
    simp only [Int.abs_natCast]
    omega)]
  rw [show ((n : ℚ)).num = (n : ℤ) from Rat.num_natCast n]
  rw [show intToChars (n : ℤ) = natToChars n by
    unfold intToChars
    rw [if_neg (by omega)]
    simp]
  exact addThousandsSeparators_digits (natToChars_spec n).1

/-- Splitting a comma-grouped digit string on commas recovers the groups. -/
theorem splitOn_comma_grouped :
    ∀ (gs : List (List Char)) (g0 : List Char), (∀ c ∈ g0, ¬(c = ',')) →
    (∀ g ∈ gs, ∀ c ∈ g, ¬(c = ',')) →
    (g0 ++ (gs.map (fun g => ',' :: g)).flatten).splitOn ',' = g0 :: gs := by
  intro gs
  induction gs with
  | nil =>
    intro g0 h0 _
    simp only [List.map_nil, List.flatten_nil, List.append_nil]
    exact List.splitOnP_eq_single _ _ (by simpa using h0)
  | cons g rest ih =>
    intro g0 h0 hgs
    have hshape : g0 ++ ((g :: rest).map (fun g => ',' :: g)).flatten =
        g0 ++ ',' :: (g ++ (rest.map (fun g => ',' :: g)).flatten) := by
      simp
    rw [hshape, List.splitOn,
      List.splitOnP_first _ g0 (by simpa using h0) ',' (by simp) _]
    rw [show (g ++ (rest.map (fun g => ',' :: g)).flatten).splitOnP (fun c => c == ',') =
      (g ++ (rest.map (fun g => ',' :: g)).flatten).splitOn ',' from rfl]
    rw [ih g (hgs g (by simp)) (fun g' hg' => hgs g' (by simp [hg']))]

/-- Comma-filtering the flattened comma-prefixed groups strips exactly the
separators. -/
theorem filter_comma_flatten :
    ∀ gs : List (List Char), (∀ g ∈ gs, ∀ c ∈ g, ¬(c = ',')) →
    ((gs.map (fun g => ',' :: g)).flatten).filter (fun c => c ≠ ',') = gs.flatten := by
  intro gs
  induction gs with
  | nil => intro _; simp
  | cons g rest ih =>
    intro hgs
    simp only [List.map_cons, List.flatten_cons, List.filter_append, List.filter_cons]
    rw [show (decide (¬(',' = ','))) = false by decide]
    simp only [Bool.false_eq_true, if_false]
    rw [List.filter_eq_self.mpr (by simpa using hgs g (by simp))]
    rw [ih (fun g' hg' => hgs g' (by simp [hg']))]

/-- Comma-filtering a grouped digit string with optional fraction strips
exactly the inserted separators. -/
theorem filter_grouped (g0 : List Char) (gs : List (List Char)) (fracPart : List Char)
    (h0 : ∀ c ∈ g0, ¬(c = ',')) (hgs : ∀ g ∈ gs, ∀ c ∈ g, ¬(c = ','))
    (hf : ∀ c ∈ fracPart, ¬(c = ',')) :
    (g0 ++ (gs.map (fun g => ',' :: g)).flatten ++ fracPart).filter (fun c => c ≠ ',') =
      g0 ++ gs.flatten ++ fracPart := by
  simp only [List.filter_append]
  rw [List.filter_eq_self.mpr (by simpa using h0), filter_comma_flatten gs hgs,
    List.filter_eq_self.mpr (by simpa using hf)]

/-- Every number literal with well-formed comma grouping — first group 1–3
digits, later groups exactly 3 digits, no commas after the decimal point —
passes `parseNumericLiteral`'s validation and reads as the comma-stripped
number. -/
theorem parseNumericLiteral_grouped (g0 : List Char) (gs : List (List Char))
    (frac : Option (List Char))
    (h0ne : g0 ≠ []) (h0len : g0.length ≤ 3) (h0d : g0.all Char.isDigit = true)
    (hgs : ∀ g ∈ gs, g.length = 3 ∧ g.all Char.isDigit = true)
    (hf : ∀ f, frac = some f → f.all Char.isDigit = true) :
    parseNumericLiteral (g0 ++ (gs.map (fun g => ',' :: g)).flatten ++
        (match frac with | some f => '.' :: f | Option.none => [])) =
      jsNumber (g0 ++ gs.flatten ++
        (match frac with | some f => '.' :: f | Option.none => [])) := by
  have h0nc : ∀ c ∈ g0, ¬(c = ',') := by
    intro c hc
    simp only [List.all_eq_true] at h0d
    exact ne_comma_of_isDigit (h0d c hc)
  have hgsnc : ∀ g ∈ gs, ∀ c ∈ g, ¬(c = ',') := by
    intro g hg c hc
    have := (hgs g hg).2
    simp only [List.all_eq_true] at this
    exact ne_comma_of_isDigit (this c hc)
  have h0nd : ∀ c ∈ g0, ¬((c == '.') = true) := by
    intro c hc
    simp only [List.all_eq_true] at h0d
    simpa using ne_dot_of_isDigit (h0d c hc)
  have hintnd : ∀ c ∈ g0 ++ (gs.map (fun g => ',' :: g)).flatten, ¬((c == '.') = true) := by
    intro c hc
    rcases List.mem_append.mp hc with hc | hc
    · exact h0nd c hc
    · simp only [List.mem_flatten, List.mem_map] at hc
      obtain ⟨l, ⟨g, hg, rfl⟩, hcl⟩ := hc
      rcases List.mem_cons.mp hcl with rfl | hcl
      · decide
      · have := (hgs g hg).2
        simp only [List.all_eq_true] at this
        simpa using ne_dot_of_isDigit (this c hcl)
  have hfracnc : ∀ c ∈ (match frac with | some f => '.' :: f | Option.none => ([] : List Char)),
      ¬(c = ',') := by
    rcases frac with _ | f
    · simp
    · intro c hc
      rcases List.mem_cons.mp hc with rfl | hc
      · decide
      · have := hf f rfl
        simp only [List.all_eq_true] at this
        exact ne_comma_of_isDigit (this c hc)
  have hne3 : ¬ ((((g0 ++ (gs.map (fun g => ',' :: g)).flatten).splitOn ',').any
      List.isEmpty) = true) := by
    rw [splitOn_comma_grouped gs g0 h0nc hgsnc]
    simp only [List.any_eq_true, not_exists, not_and]
    intro g hg
    rcases List.mem_cons.mp hg with rfl | hg
    · simp [List.isEmpty_iff, h0ne]
    · have := (hgs g hg).1
      simp only [List.isEmpty_iff]
      intro h
      rw [h] at this
      simp at this
  have hne4 : ¬ ((((g0 ++ (gs.map (fun g => ',' :: g)).flatten).splitOn ',').headD
        []).length < 1 ∨
      3 < (((g0 ++ (gs.map (fun g => ',' :: g)).flatten).splitOn ',').headD []).length) := by
    rw [splitOn_comma_grouped gs g0 h0nc hgsnc]
    simp only [List.headD_cons]
    have hpos : g0.length ≠ 0 := fun h => h0ne (List.eq_nil_of_length_eq_zero h)
    omega
  have hne5 : ¬ (((((g0 ++ (gs.map (fun g => ',' :: g)).flatten).splitOn ',').drop 1).any
      fun g => g.length ≠ 3) = true) := by
    rw [splitOn_comma_grouped gs g0 h0nc hgsnc]
    simp only [List.drop_one, List.tail_cons, List.any_eq_true, not_exists, not_and]
    intro g hg
    simp [(hgs g hg).1]
  rcases frac with _ | f
  · have hfilter := filter_grouped g0 gs [] h0nc hgsnc (by simp)
    simp only [List.append_nil] at hfilter ⊢
    unfold parseNumericLiteral
    split
    · rw [show (g0 ++ (gs.map (fun g => ',' :: g)).flatten).splitOn '.' =
        [g0 ++ (gs.map (fun g => ',' :: g)).flatten] from
          List.splitOnP_eq_single _ _ hintnd]
      simp only [List.headD_cons, List.getElem?_cons_succ, List.getElem?_nil,
        Option.map_none', Option.getD_none, Bool.false_eq_true, if_false]
      rw [if_neg hne3, if_neg hne4, if_neg hne5, hfilter]
    · rw [hfilter]
  · have hfd := hf f rfl
    have hfilter := filter_grouped g0 gs ('.' :: f) h0nc hgsnc (by
      intro c hc
      rcases List.mem_cons.mp hc with rfl | hc
      · decide
      · simp only [List.all_eq_true] at hfd
        exact ne_comma_of_isDigit (hfd c hc))
    have hfc : f.contains ',' = false := by
      rw [show f.contains ',' = List.elem ',' f from rfl, List.elem_eq_mem]
      simp only [decide_eq_false_iff_not]
      intro hm
      simp only [List.all_eq_true] at hfd
      exact (ne_comma_of_isDigit (hfd ',' hm)) rfl
    unfold parseNumericLiteral
    split
    · rw [show (g0 ++ (gs.map (fun g => ',' :: g)).flatten ++ ('.' :: f)).splitOn '.' =
        (g0 ++ (gs.map (fun g => ',' :: g)).flatten) :: f.splitOn '.' from
          List.splitOnP_first _ _ hintnd '.' (by simp) f]
      rw [show f.splitOn '.' = [f] from List.splitOnP_eq_single _ _ (by
        intro x hx
        simp only [List.all_eq_true] at hfd
        simpa using ne_dot_of_isDigit (hfd x hx))]
      simp only [List.headD_cons, List.getElem?_cons_succ, List.getElem?_cons_zero,
        Option.map_some', Option.getD_some, hfc, Bool.false_eq_true, if_false]
      rw [if_neg hne3, if_neg hne4, if_neg hne5, hfilter]
    · rw [hfilter]

/-- C8: thousands separators round-trip between formatter and tokenizer —
`formatValue` renders `12345678` as `"12,345,678"`; every positive safe
integer below the scientific threshold formats as comma-grouped digits and
parses back to itself; every number literal with well-formed comma grouping
(first group 1–3 digits, later groups exactly 3, no commas after the dot)
parses to the comma-stripped number, so `2,000 + 1` evaluates to `2001`;
and malformed grouping such as `1,0000` is rejected as a parse error. -/
theorem c8_thousands_separators_roundtrip :
    formatValue { amount := 12345678, unit := Unit.none } = "12,345,678" ∧
    evaluateExpression "2,000 + 1" = EvalResult.value { amount := 2001, unit := Unit.none } ∧
    parseNumericLiteral ("1,0000" : String).data = Option.none ∧
    tokenize ("1,0000" : String).data = Except.error "Invalid number: 1,0000" ∧
    (∀ n : ℕ, 0 < n → n < 1000000000 →
      formatAmount ((n : ℕ) : ℚ) = insertCommas (natToChars n) ∧
      parseNumericLiteral (formatAmount ((n : ℕ) : ℚ)) = some ((n : ℕ) : ℚ)) ∧
    (∀ (g0 : List Char) (gs : List (List Char)) (frac : Option (List Char)),
      g0 ≠ [] → g0.length ≤ 3 → g0.all Char.isDigit = true →
      (∀ g ∈ gs, g.length = 3 ∧ g.all Char.isDigit = true) →
      (∀ f, frac = some f → f.all Char.isDigit = true) →
      parseNumericLiteral (g0 ++ (gs.map (fun g => ',' :: g)).flatten ++
          (match frac with | some f => '.' :: f | Option.none => [])) =
        jsNumber (g0 ++ gs.flatten ++
          (match frac with | some f => '.' :: f | Option.none => []))) := by
  refine ⟨?_, ?_, by decide, rfl, fun n h0 hlt => ⟨formatAmount_nat h0 hlt, ?_⟩,
    fun g0 gs frac h1 h2 h3 h4 h5 => ?_⟩
  · show String.mk (formatAmount 12345678) = _
    rw [show (12345678 : ℚ) = ((12345678 : ℕ) : ℚ) by norm_num]
    rw [formatAmount_nat (by norm_num) (by norm_num)]
    decide
  · show evalExpr
        (Expr.binary Op.add (Expr.number (numberValue 2000)) (Expr.number (numberValue 1)))
        [] = _
    simp [evalExpr, evalBinary, numberValue]
    norm_num
  · obtain ⟨hdig, hne, hval⟩ := natToChars_spec n
    rw [formatAmount_nat h0 hlt, parseNumericLiteral_insertCommas hne hdig, hval]
  · cases frac with
    | none => exact parseNumericLiteral_grouped g0 gs Option.none h1 h2 h3 h4 h5
    | some f => exact parseNumericLiteral_grouped g0 gs (some f) h1 h2 h3 h4 h5

/-- Witness for C8: the number `2000` formats as `2,000` and parses back, and
the grouped literal `2,000` reads as `2000`. -/
theorem c8_thousands_witness :
    formatAmount ((2000 : ℕ) : ℚ) = insertCommas (natToChars 2000) ∧
    parseNumericLiteral (formatAmount ((2000 : ℕ) : ℚ)) = some ((2000 : ℕ) : ℚ) ∧
    parseNumericLiteral (['2'] ++ ([['0', '0', '0']].map (fun g => ',' :: g)).flatten ++ []) =
      jsNumber (['2'] ++ [['0', '0', '0']].flatten ++ []) := by
  refine ⟨(c8_thousands_separators_roundtrip.2.2.2.2.1 2000 (by decide) (by decide)).1,
    (c8_thousands_separators_roundtrip.2.2.2.2.1 2000 (by decide) (by decide)).2, ?_⟩
  exact c8_thousands_separators_roundtrip.2.2.2.2.2 ['2'] [['0', '0', '0']] Option.none
    (by decide) (by decide) (by decide) (by decide) (by decide)

end Theorems
